import Mathlib

/-! Verification of the Own-Password ("Passwood") vault model and encrypted
file format, shallowly embedded from the TypeScript sources
(`frontend/src/cryptor/{types,crypto,format}.ts`, `utils.ts`, and the
PasswordManager component).  Machine integers are modelled as `Nat` with
explicit `% 256` / `% 2^32` reductions where the source relies on byte or
uint32 wrap-around.  The Web Crypto primitives (PBKDF2, AES-GCM, HMAC) are
platform built-ins, not repository code; they are modelled symbolically as
ideal primitives (injective key derivation, perfectly authenticated
encryption and MAC), which is the contract the format relies on. -/

set_option maxRecDepth 8000

namespace Passwood

/-- Tag from cryptor/types.ts: a centralized tag definition with color. -/
structure Tag where
  id : String
  name : String
  color : String
deriving DecidableEq, Repr

/-- CustomField from cryptor/types.ts.  The `type` field is one of four
string literals in the source; it is kept as an optional String here. -/
structure CustomField where
  name : String
  value : String
  type : Option String
deriving DecidableEq, Repr

/-- PasswoodPassword from cryptor/types.ts (the "password/login" shape).
Optional (`?:`) fields become `Option`. -/
structure PasswoodPassword where
  id : String
  title : String
  login : String
  password : String
  url : Option String
  notes : Option String
  tags : Option (List String)
  created : String
  modified : String
  customFields : Option (List CustomField)
deriving DecidableEq, Repr

/-- PasswoodEntry from cryptor/types.ts (the older "entry/username" shape). -/
structure PasswoodEntry where
  id : String
  title : String
  username : String
  password : String
  url : Option String
  notes : Option String
  tags : Option (List String)
  created : String
  modified : String
  customFields : Option (List CustomField)
deriving DecidableEq, Repr

/-- PasswoodCollection from cryptor/types.ts, including the optional
centralized tag definitions (`tags?: Tag[]`, see the tag-management notes). -/
structure PasswoodCollection where
  version : String
  created : String
  modified : String
  passwords : List PasswoodPassword
  tags : Option (List Tag)
deriving DecidableEq, Repr

/-- The entry-shaped PasswoodCollection (the second types.ts version, whose
collection holds `entries`).  Both versions carry the same name in the
source; Lean needs a distinct name for the second one. -/
structure PasswoodEntryCollection where
  version : String
  created : String
  modified : String
  entries : List PasswoodEntry
deriving DecidableEq, Repr

/-- The `Partial<Omit<PasswoodPassword, 'id' | 'created'>>` update object of
updatePassword.  An absent field is `none`; a present field is `some` of its
value (for source-optional fields the value is itself an `Option`). -/
structure PasswordUpdates where
  title : Option String
  login : Option String
  password : Option String
  url : Option (Option String)
  notes : Option (Option String)
  tags : Option (Option (List String))
  modified : Option String
  customFields : Option (Option (List CustomField))
deriving DecidableEq, Repr

/-- The object spread `{ ...password, ...updates, modified: now }` from
updatePassword in utils.ts: fields present in `updates` override the
password's fields, and `modified` is then set to `now` unconditionally. -/
def applyPasswordUpdates (password : PasswoodPassword) (updates : PasswordUpdates)
    (now : String) : PasswoodPassword :=
  { id := password.id
    title := updates.title.getD password.title
    login := updates.login.getD password.login
    password := updates.password.getD password.password
    url := updates.url.getD password.url
    notes := updates.notes.getD password.notes
    tags := updates.tags.getD password.tags
    created := password.created
    modified := now
    customFields := updates.customFields.getD password.customFields }

/-- updatePassword from utils.ts (password-shaped version).  `now` stands for
the `new Date().toISOString()` value taken at the start of the call. -/
def updatePassword (database : PasswoodCollection) (passwordId : String)
    (updates : PasswordUpdates) (now : String) : PasswoodCollection :=
  { database with
    modified := now
    passwords := database.passwords.map fun password =>
      if password.id = passwordId then applyPasswordUpdates password updates now
      else password }

/-- The `Partial<Omit<PasswoodEntry, 'id' | 'created'>>` update object of
updateEntry. -/
structure EntryUpdates where
  title : Option String
  username : Option String
  password : Option String
  url : Option (Option String)
  notes : Option (Option String)
  tags : Option (Option (List String))
  modified : Option String
  customFields : Option (Option (List CustomField))
deriving DecidableEq, Repr

/-- The object spread `{ ...entry, ...updates, modified: now }` from
updateEntry in utils.ts. -/
def applyEntryUpdates (entry : PasswoodEntry) (updates : EntryUpdates)
    (now : String) : PasswoodEntry :=
  { id := entry.id
    title := updates.title.getD entry.title
    username := updates.username.getD entry.username
    password := updates.password.getD entry.password
    url := updates.url.getD entry.url
    notes := updates.notes.getD entry.notes
    tags := updates.tags.getD entry.tags
    created := entry.created
    modified := now
    customFields := updates.customFields.getD entry.customFields }

/-- updateEntry from utils.ts (entry-shaped version). -/
def updateEntry (database : PasswoodEntryCollection) (entryId : String)
    (updates : EntryUpdates) (now : String) : PasswoodEntryCollection :=
  { database with
    modified := now
    entries := database.entries.map fun entry =>
      if entry.id = entryId then applyEntryUpdates entry updates now
      else entry }

/-- JS `String.prototype.includes`: whether `sub` occurs as a contiguous
substring of `s`. -/
def jsIncludes (s sub : String) : Bool := decide (sub.data <:+: s.data)

/-- searchPasswords from utils.ts: case-insensitive substring filter over
title, login, url and tag names.  `?.` on the optional url/tags fields makes
an absent field contribute `false` to the disjunction. -/
def searchPasswords (database : PasswoodCollection) (query : String) :
    List PasswoodPassword :=
  let lowerQuery := query.toLower
  database.passwords.filter fun password =>
    jsIncludes password.title.toLower lowerQuery ||
    jsIncludes password.login.toLower lowerQuery ||
    (match password.url with
     | some url => jsIncludes url.toLower lowerQuery
     | none => false) ||
    (match password.tags with
     | some tags => tags.any fun tag => jsIncludes tag.toLower lowerQuery
     | none => false)

/-- searchEntries from utils.ts: the entry-shaped twin of searchPasswords
(matching against username instead of login). -/
def searchEntries (database : PasswoodEntryCollection) (query : String) :
    List PasswoodEntry :=
  let lowerQuery := query.toLower
  database.entries.filter fun entry =>
    jsIncludes entry.title.toLower lowerQuery ||
    jsIncludes entry.username.toLower lowerQuery ||
    (match entry.url with
     | some url => jsIncludes url.toLower lowerQuery
     | none => false) ||
    (match entry.tags with
     | some tags => tags.any fun tag => jsIncludes tag.toLower lowerQuery
     | none => false)

/-- handleSaveTags from the PasswordManager component, restricted to the pure
collection transformation it performs (the value passed to setCollection):
rename cascades rewrite matching tag names in every password, delete cascades
filter them out, and the collection's tag list is replaced wholesale. -/
def handleSaveTags (collection : PasswoodCollection) (tags : List Tag)
    (renamedTags : List (String × String)) (deletedTagNames : List String) :
    PasswoodCollection :=
  let updatedPasswords := collection.passwords
  let updatedPasswords := renamedTags.foldl
    (fun passwords r => passwords.map fun password =>
      { password with
        tags := password.tags.map (List.map fun tag => if tag = r.1 then r.2 else tag) })
    updatedPasswords
  let updatedPasswords := deletedTagNames.foldl
    (fun passwords deletedName => passwords.map fun password =>
      { password with
        tags := password.tags.map (List.filter fun tag => tag != deletedName) })
    updatedPasswords
  { collection with tags := some tags, passwords := updatedPasswords }

/-- The property the spec phrases as "case-insensitive substring match":
`q` occurs as a substring of `s` after lowercasing both.  Spec-side
definition, compared against the source's search filter in claim C9. -/
def specCaseInsensitiveSubstring (q s : String) : Prop :=
  q.toLower.data <:+: s.toLower.data

/-- The algorithm a Web Crypto derived key is usable for (`deriveKey` in
crypto.ts derives an AES-GCM key, `createHMACKey` an HMAC-SHA256 key; Web
Crypto keys are not interchangeable between the two usages). -/
inductive KeyAlg where
  | aesGcm
  | hmacSha256
deriving DecidableEq, Repr

/-- Modelled from the spec: Web Crypto's PBKDF2 (`crypto.subtle.deriveKey`)
is a platform built-in, not repository code.  It is modelled as an ideal KDF:
the derived key is the record of its inputs, so keys derived from different
passwords, salts or iteration counts are distinct, and equal inputs give
equal keys. -/
structure CryptoKey where
  alg : KeyAlg
  password : String
  salt : List Nat
  iterations : Nat
deriving DecidableEq, Repr

/-- deriveKey from crypto.ts: PBKDF2-SHA256 over the password with the given
salt and iteration count, yielding an AES-GCM key. -/
def deriveKey (password : String) (salt : List Nat) (iterations : Nat) : CryptoKey :=
  { alg := .aesGcm, password := password, salt := salt, iterations := iterations }

/-- createHMACKey from crypto.ts: PBKDF2-SHA256 over the password with the
given salt and a fixed 100000 iterations, yielding an HMAC-SHA256 key. -/
def createHMACKey (password : String) (salt : List Nat) : CryptoKey :=
  { alg := .hmacSha256, password := password, salt := salt, iterations := 100000 }

/-- Modelled from the spec: the plaintext handed to the cipher is the
`JSON.stringify` text of the collection.  JSON text for these records is
round-trip lossless, so it is modelled symbolically as a term recording the
collection it serializes. -/
inductive PlainText where
  | ofDb (database : PasswoodCollection)
deriving DecidableEq, Repr

/-- JSON.stringify restricted to PasswoodCollection (symbolic). -/
def jsonStringify (database : PasswoodCollection) : PlainText :=
  .ofDb database

/-- JSON.parse of a plaintext back into a PasswoodCollection (symbolic
partial inverse of jsonStringify). -/
def jsonParse : PlainText → Option PasswoodCollection
  | .ofDb database => some database

/-- Abstract stand-in for the UTF-8 byte length of the JSON text of a
plaintext; none of the verified claims depends on its exact value, only on
the ciphertext occupying `PlainText.len + 16` byte positions. -/
def PlainText.len : PlainText → Nat
  | .ofDb database => database.passwords.length + 2

/-- Modelled from the spec: Web Crypto's AES-256-GCM is a platform built-in.
A ciphertext is modelled symbolically as the record of the key, IV and
plaintext that produced it; decryption succeeds exactly on a ciphertext
produced under the same key and IV (ideal authenticated encryption). -/
structure Ct where
  key : CryptoKey
  iv : List Nat
  plain : PlainText
deriving DecidableEq, Repr

/-- Modelled from the spec: Web Crypto's HMAC-SHA256 is a platform built-in.
A MAC tag is modelled symbolically as the record of the signed bytes and the
key; verification succeeds exactly on that tag (ideal, unforgeable MAC). -/
structure HTag where
  data : List Nat
  key : CryptoKey
deriving DecidableEq, Repr

/-- A byte of a .passwood file.  Concrete bytes are `conc b`; the bytes of
the symbolic HMAC tag and of the symbolic ciphertext are indexed projections
of those objects; `corrupt` represents a symbolic byte after a bit flip. -/
inductive SByte where
  | conc (b : Nat)
  | hmacByte (t : HTag) (idx : Nat)
  | ctByte (c : Ct) (idx : Nat)
  | corrupt (orig : SByte) (bit : Nat)
deriving DecidableEq, Repr

/-- Numeric value of a byte; used only on concrete bytes (symbolic bytes
project to 0). -/
def SByte.val : SByte → Nat
  | .conc b => b
  | _ => 0

/-- The 256-bit HMAC value as it sits in the 32-byte header field: either
concrete bytes (the zero placeholder, or attacker-chosen bytes), the 32
bytes of a symbolic tag, or an unstructured region (e.g. a tampered tag). -/
inductive HmacField where
  | bytes (bs : List Nat)
  | tag (t : HTag)
  | junk (region : List SByte)
deriving DecidableEq, Repr

/-- GCM ciphertext length: plaintext length plus the 16-byte (128-bit)
authentication tag appended by AES-GCM. -/
def ctLen (c : Ct) : Nat := c.plain.len + 16

/-- The byte region a symbolic ciphertext occupies in the file. -/
def ctBytes (c : Ct) : List SByte :=
  (List.range (ctLen c)).map (SByte.ctByte c)

/-- encryptData from crypto.ts: AES-256-GCM (symbolic). -/
def encryptData (data : PlainText) (key : CryptoKey) (iv : List Nat) : Ct :=
  { key := key, iv := iv, plain := data }

/-- Recover the symbolic ciphertext from a byte region: succeeds only when
the region is exactly the untampered image of one ciphertext. -/
def reassembleCt (region : List SByte) : Option Ct :=
  match region with
  | .ctByte c 0 :: _ => if region = ctBytes c then some c else none
  | _ => none

/-- decryptData from crypto.ts: AES-256-GCM decryption (symbolic).  Fails
(GCM tag mismatch) unless the region is an untampered ciphertext produced
under the same key and IV. -/
def decryptData (encryptedData : List SByte) (key : CryptoKey) (iv : List SByte) :
    Option PlainText :=
  match reassembleCt encryptedData with
  | some c => if c.key = key ∧ iv = c.iv.map SByte.conc then some c.plain else none
  | none => none

/-- generateHMAC from crypto.ts: HMAC-SHA256 over the data bytes (symbolic;
the data handed to it by the codec is always concrete, so the `SByte.val`
projection is faithful there). -/
def generateHMAC (data : List SByte) (key : CryptoKey) : HTag :=
  { data := data.map SByte.val, key := key }

/-- verifyHMAC from crypto.ts: succeeds exactly when the signature is the
ideal tag of the data under the key. -/
def verifyHMAC (data : List SByte) (signature : HmacField) (key : CryptoKey) : Bool :=
  signature = .tag (generateHMAC data key)

/-- MAGIC_BYTES from format.ts, as the UTF-8 bytes of the string "PSWD". -/
def MAGIC_BYTES : List Nat := [80, 83, 87, 68]

/-- FILE_VERSION from format.ts. -/
def FILE_VERSION : Nat := 1

/-- HEADER_SIZE from format.ts. -/
def HEADER_SIZE : Nat := 256

/-- ENCRYPTION_ALGORITHM_AES_GCM from format.ts. -/
def ENCRYPTION_ALGORITHM_AES_GCM : Nat := 1

/-- PasswoodHeader from cryptor/types.ts.  `magic` is kept as the UTF-8
bytes of the source's magic string (TextEncoder/TextDecoder are mutually
inverse on the 4-byte ASCII values the format uses). -/
structure PasswoodHeader where
  magic : List Nat
  version : Nat
  encryptionAlgorithm : Nat
  kdfSalt : List Nat
  kdfIterations : Nat
  kdfMemory : Nat
  kdfParallelism : Nat
  hmac : HmacField
deriving DecidableEq, Repr

/-- An all-zero byte buffer (`new Uint8Array(n)`), kept as its own
definition so rewriting never expands it into a literal list. -/
def zeros (n : Nat) : List SByte := List.replicate n (SByte.conc 0)

/-- The 32 zero bytes (`new Uint8Array(32)`) used as the hmac placeholder. -/
def zeroHmac : List Nat := List.replicate 32 0

/-- `buffer.set(data, offset)` / DataView writes: splice `data` over the
buffer starting at `offset` (the in-bounds behavior of the source's writes;
every write the format performs is in bounds). -/
def writeBytes (buffer : List SByte) (offset : Nat) (data : List SByte) : List SByte :=
  buffer.take offset ++ data ++ buffer.drop (offset + data.length)

/-- `DataView.setUint32(offset, n, true)`: the four little-endian bytes of
`n` reduced mod 2^32. -/
def encU32 (n : Nat) : List SByte :=
  [.conc (n % 256), .conc (n / 256 % 256), .conc (n / 65536 % 256),
   .conc (n / 16777216 % 256)]

/-- The 32 bytes the hmac field of a header occupies when serialized. -/
def hmacFieldBytes : HmacField → List SByte
  | .bytes bs => bs.map SByte.conc
  | .tag t => (List.range 32).map (SByte.hmacByte t)
  | .junk region => region

/-- serializeHeader from format.ts: a 256-byte zeroed buffer with each field
written at its fixed offset (magic 0, version 4, algorithm 8, salt 12,
iterations 44, memory 48, parallelism 52, hmac 56; bytes 88..255 reserved). -/
def serializeHeader (header : PasswoodHeader) : List SByte :=
  let buffer := zeros 256
  let buffer := writeBytes buffer 0 (header.magic.map SByte.conc)
  let buffer := writeBytes buffer 4 (encU32 header.version)
  let buffer := writeBytes buffer 8 (encU32 header.encryptionAlgorithm)
  let buffer := writeBytes buffer 12 (header.kdfSalt.map SByte.conc)
  let buffer := writeBytes buffer 44 (encU32 header.kdfIterations)
  let buffer := writeBytes buffer 48 (encU32 header.kdfMemory)
  let buffer := writeBytes buffer 52 (encU32 header.kdfParallelism)
  writeBytes buffer 56 (hmacFieldBytes header.hmac)

/-- Read a region of concrete bytes (fails if a symbolic byte sits where the
source would read a number; unreachable for the files the claims build). -/
def concRegion : List SByte → Option (List Nat)
  | [] => some []
  | .conc b :: rest => (concRegion rest).map (b :: ·)
  | _ => none

/-- `DataView.getUint32(offset, true)` over a 4-byte region. -/
def decU32 : List Nat → Option Nat
  | [b0, b1, b2, b3] => some (b0 + 256 * b1 + 65536 * b2 + 16777216 * b3)
  | _ => none

/-- Read a little-endian uint32 from a 4-byte region of the buffer. -/
def readU32 (region : List SByte) : Option Nat :=
  (concRegion region).bind decU32

/-- Read back the 32-byte hmac region: an untampered symbolic tag yields that
tag, all-concrete bytes yield those bytes, anything else (e.g. a bit-flipped
tag byte) is an unstructured junk value that no verification accepts. -/
def readHmacField (region : List SByte) : HmacField :=
  match region with
  | .hmacByte t 0 :: _ =>
      if region = (List.range 32).map (SByte.hmacByte t) then .tag t else .junk region
  | _ =>
      match concRegion region with
      | some bs => .bytes bs
      | none => .junk region

/-- deserializeHeader from format.ts: read each field back from its fixed
offset.  The source throws only on buffers shorter than 256 bytes; the
remaining `none` rows are an artifact of symbolic bytes sitting where a
concrete field is expected and are unreachable for the files the claims
exercise. -/
def deserializeHeader (buffer : List SByte) : Option PasswoodHeader :=
  if buffer.length < 256 then none else
  match concRegion (buffer.take 4), readU32 ((buffer.drop 4).take 4),
        readU32 ((buffer.drop 8).take 4), concRegion ((buffer.drop 12).take 32),
        readU32 ((buffer.drop 44).take 4), readU32 ((buffer.drop 48).take 4),
        readU32 ((buffer.drop 52).take 4) with
  | some magic, some version, some alg, some salt, some iter, some mem, some par =>
      some { magic := magic, version := version, encryptionAlgorithm := alg,
             kdfSalt := salt, kdfIterations := iter, kdfMemory := mem,
             kdfParallelism := par,
             hmac := readHmacField ((buffer.drop 56).take 32) }
  | _, _, _, _, _, _, _ => none

/-- encodePasswoodFile from format.ts with the algorithm header field left
as a parameter; helper used to show decode never inspects that field.  With
`alg = ENCRYPTION_ALGORITHM_AES_GCM` this is exactly encodePasswoodFile. -/
def encodeWithAlgorithm (database : PasswoodCollection) (masterPassword : String)
    (salt iv : List Nat) (alg : Nat) : List SByte :=
  let iterations := 600000
  let encryptionKey := deriveKey masterPassword salt iterations
  let jsonData := jsonStringify database
  let encrypted := encryptData jsonData encryptionKey iv
  let header : PasswoodHeader :=
    { magic := MAGIC_BYTES, version := FILE_VERSION, encryptionAlgorithm := alg,
      kdfSalt := salt, kdfIterations := iterations, kdfMemory := 65536,
      kdfParallelism := 4, hmac := .bytes zeroHmac }
  let headerBuffer := serializeHeader header
  let hmacKey := createHMACKey masterPassword salt
  let hmac := generateHMAC headerBuffer hmacKey
  let finalHeaderBuffer := serializeHeader { header with hmac := .tag hmac }
  finalHeaderBuffer ++ iv.map SByte.conc ++ ctBytes encrypted

/-- encodePasswoodFile from format.ts.  The random salt (generateSalt 32)
and IV (generateIV, 12 bytes) the source draws internally are passed in
explicitly. -/
def encodePasswoodFile (database : PasswoodCollection) (masterPassword : String)
    (salt iv : List Nat) : List SByte :=
  encodeWithAlgorithm database masterPassword salt iv ENCRYPTION_ALGORITHM_AES_GCM

/-- The failures decodePasswoodFile can throw, one per throw site in
format.ts (headerTooSmall covers deserializeHeader's own length check and the
symbolic-parse artifact noted on deserializeHeader). -/
inductive DecodeError where
  | tooSmall
  | headerTooSmall
  | incorrectMagic
  | unsupportedVersion (version : Nat)
  | hmacVerificationFailed
  | decryptionFailed
  | corruptedDatabase
deriving DecidableEq, Repr

/-- The error message each throw site in format.ts produces. -/
def decodeErrorMessage : DecodeError → String
  | .tooSmall => "Invalid file: too small"
  | .headerTooSmall => "Invalid header: buffer too small"
  | .incorrectMagic => "Invalid file: incorrect magic bytes"
  | .unsupportedVersion _ => "Unsupported file version"
  | .hmacVerificationFailed =>
      "Invalid file: HMAC verification failed (file may be corrupted or tampered)"
  | .decryptionFailed => "Decryption failed: incorrect password or corrupted file"
  | .corruptedDatabase => "Invalid file: corrupted database structure"

/-- How UnlockDialog.tsx surfaces a decodePasswoodFile failure to the end
user: its catch-all maps every decode error to one message. -/
def unlockErrorMessage (_ : DecodeError) : String :=
  "Failed to decrypt: incorrect password or corrupted file"

/-- decodePasswoodFile from format.ts. -/
def decodePasswoodFile (fileData : List SByte) (masterPassword : String) :
    Except DecodeError PasswoodCollection :=
  if fileData.length < HEADER_SIZE + 12 then .error .tooSmall else
  match deserializeHeader (fileData.take HEADER_SIZE) with
  | none => .error .headerTooSmall
  | some header =>
    if header.magic ≠ MAGIC_BYTES then .error .incorrectMagic else
    if header.version ≠ FILE_VERSION then .error (.unsupportedVersion header.version) else
    let hmacKey := createHMACKey masterPassword header.kdfSalt
    let headerWithoutHMAC :=
      serializeHeader { header with hmac := .bytes zeroHmac }
    if ¬ verifyHMAC headerWithoutHMAC header.hmac hmacKey then
      .error .hmacVerificationFailed
    else
      let iv := (fileData.drop HEADER_SIZE).take 12
      let encryptedData := fileData.drop (HEADER_SIZE + 12)
      let decryptionKey := deriveKey masterPassword header.kdfSalt header.kdfIterations
      match decryptData encryptedData decryptionKey iv with
      | none => .error .decryptionFailed
      | some jsonData =>
        match jsonParse jsonData with
        | none => .error .corruptedDatabase
        | some database => .ok database

/-- Flip bit `bit` of one byte: on a concrete byte this is xor with 2^bit;
on a symbolic byte it yields the corrupted byte. -/
def flipSByte (s : SByte) (bit : Nat) : SByte :=
  match s with
  | .conc b => .conc (b ^^^ 2 ^ bit)
  | s => .corrupt s bit

/-- Flip bit `bit` of the byte at position `pos` of a file (no-op past the
end of the file). -/
def flipBitAt : List SByte → Nat → Nat → List SByte
  | [], _, _ => []
  | b :: rest, 0, bit => flipSByte b bit :: rest
  | b :: rest, pos + 1, bit => b :: flipBitAt rest pos bit

/-- A concrete collection used by the closed witness statements. -/
def sampleDb : PasswoodCollection :=
  { version := "1.0.0", created := "2024-01-01T00:00:00Z",
    modified := "2024-01-02T00:00:00Z",
    passwords := [
      { id := "a", title := "GitHub", login := "me@x.com", password := "p@ss",
        url := none, notes := none, tags := some ["work"],
        created := "2024-01-01T00:00:00Z", modified := "2024-01-01T00:00:00Z",
        customFields := none }],
    tags := none }

/-- A concrete 32-byte salt for witnesses. -/
def sampleSalt : List Nat := List.replicate 32 7

/-- A concrete 12-byte IV for witnesses. -/
def sampleIv : List Nat := List.replicate 12 3

/-- A concrete header for the C5 witness. -/
def sampleHeader : PasswoodHeader :=
  { magic := [80, 83, 87, 68], version := 1, encryptionAlgorithm := 1,
    kdfSalt := List.replicate 32 5, kdfIterations := 600000, kdfMemory := 65536,
    kdfParallelism := 4, hmac := .bytes (List.replicate 32 9) }

/-- The byte-level twin of flipBitAt on plain numeric bytes. -/
def flipNatAt : List Nat → Nat → Nat → List Nat
  | [], _, _ => []
  | b :: rest, 0, bit => (b ^^^ 2 ^ bit) :: rest
  | b :: rest, pos + 1, bit => b :: flipNatAt rest pos bit

/-- A byte region consisting only of concrete bytes. -/
def AllConc (l : List SByte) : Prop := ∀ s ∈ l, ∃ b, s = SByte.conc b

/-- The header encodePasswoodFile builds before the HMAC is spliced in
(the `header` let-binding of the source, with the fresh salt). -/
def encHdr0 (P : String) (salt : List Nat) : PasswoodHeader :=
  { magic := MAGIC_BYTES, version := FILE_VERSION,
    encryptionAlgorithm := ENCRYPTION_ALGORITHM_AES_GCM, kdfSalt := salt,
    kdfIterations := 600000, kdfMemory := 65536, kdfParallelism := 4,
    hmac := .bytes zeroHmac }

/-- The header HMAC encodePasswoodFile computes (the `hmac` let-binding). -/
def encTag (P : String) (salt : List Nat) : HTag :=
  generateHMAC (serializeHeader (encHdr0 P salt)) (createHMACKey P salt)

/-- The final header encodePasswoodFile serializes. -/
def encHdr1 (P : String) (salt : List Nat) : PasswoodHeader :=
  { encHdr0 P salt with hmac := .tag (encTag P salt) }

/-- The ciphertext encodePasswoodFile appends. -/
def encCt (database : PasswoodCollection) (P : String) (salt iv : List Nat) : Ct :=
  { key := deriveKey P salt 600000, iv := iv, plain := .ofDb database }

/-- The all-absent update object (an empty Partial). -/
def emptyPasswordUpdates : PasswordUpdates :=
  { title := none, login := none, password := none, url := none, notes := none,
    tags := none, modified := none, customFields := none }

/-- The all-absent entry update object. -/
def emptyEntryUpdates : EntryUpdates :=
  { title := none, username := none, password := none, url := none, notes := none,
    tags := none, modified := none, customFields := none }

/-- A concrete entry collection for witnesses. -/
def sampleEdb : PasswoodEntryCollection :=
  { version := "1.0.0", created := "2024-01-01T00:00:00Z",
    modified := "2024-01-02T00:00:00Z",
    entries := [
      { id := "b", title := "Email", username := "me@y.com", password := "s3cret",
        url := none, notes := none, tags := none,
        created := "2024-01-01T00:00:00Z", modified := "2024-01-01T00:00:00Z",
        customFields := none }] }

theorem length_encU32 (n : Nat) : (encU32 n).length = 4 := rfl

theorem concRegion_map_conc (l : List Nat) : concRegion (l.map SByte.conc) = some l := by
  induction l with
  | nil => rfl
  | cons a t ih => simp [concRegion, ih]

theorem readU32_encU32 (n : Nat) (hn : n < 4294967296) : readU32 (encU32 n) = some n := by
  simp [readU32, encU32, concRegion, decU32]
  omega

theorem readHmacField_map_conc (bs : List Nat) :
    readHmacField (bs.map SByte.conc) = .bytes bs := by
  match bs with
  | [] => rfl
  | b :: rest => simp [readHmacField, concRegion, concRegion_map_conc]

theorem readHmacField_tag (t : HTag) :
    readHmacField ((List.range 32).map (SByte.hmacByte t)) = .tag t := by
  have hr : (List.range 32).map (SByte.hmacByte t)
      = SByte.hmacByte t 0 ::
        (List.range 31).map (fun x => SByte.hmacByte t (x + 1)) := by
    rw [show (32 : Nat) = 31 + 1 from rfl, List.range_succ_eq_map]
    simp [List.map_map, Function.comp]
  rw [hr]
  simp [readHmacField, ← hr]

theorem writeBytes_append_right (a rest data : List SByte) (off : Nat)
    (h : a.length ≤ off) :
    writeBytes (a ++ rest) off data = a ++ writeBytes rest (off - a.length) data := by
  unfold writeBytes
  rw [List.take_append_eq_append_take, List.take_of_length_le h,
    List.drop_append_eq_append_drop, List.drop_eq_nil_of_le (by omega)]
  rw [show off + data.length - a.length = off - a.length + data.length by omega]
  simp [List.append_assoc]

theorem length_zeros (n : Nat) : (zeros n).length = n := by
  simp [zeros]

theorem writeBytes_zeros (r : Nat) (data : List SByte) :
    writeBytes (zeros r) 0 data = data ++ zeros (r - data.length) := by
  unfold writeBytes zeros
  simp [List.drop_replicate]

/-- The serialized header as a plain concatenation of its seven field
regions, the hmac region and the 168 reserved zero bytes, valid whenever the
variable-length fields have the sizes the format reserves for them. -/
theorem serializeHeader_layout (h : PasswoodHeader)
    (hm : h.magic.length = 4) (hs : h.kdfSalt.length = 32)
    (hh : (hmacFieldBytes h.hmac).length = 32) :
    serializeHeader h =
      h.magic.map SByte.conc ++ (encU32 h.version ++ (encU32 h.encryptionAlgorithm ++
      (h.kdfSalt.map SByte.conc ++ (encU32 h.kdfIterations ++ (encU32 h.kdfMemory ++
      (encU32 h.kdfParallelism ++ (hmacFieldBytes h.hmac ++
      zeros 168))))))) := by
  simp only [serializeHeader]
  simp [writeBytes_append_right, writeBytes_zeros, length_encU32, hm, hs, hh]

/-- deserializeHeader evaluated on an arbitrary buffer that is split into
regions of the fixed field widths: each reader runs on its own region. -/
theorem deserializeHeader_segments (mB vB aB sB iB meB pB hB tail : List SByte)
    (hm : mB.length = 4) (hv : vB.length = 4) (ha : aB.length = 4)
    (hs : sB.length = 32) (hi : iB.length = 4) (hme : meB.length = 4)
    (hp : pB.length = 4) (hh : hB.length = 32) (ht : tail.length = 168) :
    deserializeHeader
      (mB ++ (vB ++ (aB ++ (sB ++ (iB ++ (meB ++ (pB ++ (hB ++ tail)))))))) =
      match concRegion mB, readU32 vB, readU32 aB, concRegion sB,
            readU32 iB, readU32 meB, readU32 pB with
      | some magic, some version, some alg, some salt, some iter, some mem, some par =>
          some { magic := magic, version := version, encryptionAlgorithm := alg,
                 kdfSalt := salt, kdfIterations := iter, kdfMemory := mem,
                 kdfParallelism := par, hmac := readHmacField hB }
      | _, _, _, _, _, _, _ => none := by
  simp [deserializeHeader, List.take_append_eq_append_take,
    List.drop_append_eq_append_drop, List.take_of_length_le,
    List.drop_eq_nil_of_le, hm, hv, ha, hs, hi, hme, hp, hh, ht]

/-- Header round trip for headers whose variable-width fields have the
reserved sizes, whose integers are in uint32 range and whose hmac field
survives its own region read (concrete 32 bytes or an untampered tag). -/
theorem deserializeHeader_serializeHeader (h : PasswoodHeader)
    (hm : h.magic.length = 4) (hs : h.kdfSalt.length = 32)
    (hh : (hmacFieldBytes h.hmac).length = 32)
    (hv : h.version < 4294967296) (ha : h.encryptionAlgorithm < 4294967296)
    (hi : h.kdfIterations < 4294967296) (hme : h.kdfMemory < 4294967296)
    (hp : h.kdfParallelism < 4294967296)
    (hhm : readHmacField (hmacFieldBytes h.hmac) = h.hmac) :
    deserializeHeader (serializeHeader h) = some h := by
  rw [serializeHeader_layout h hm hs hh,
    deserializeHeader_segments (h.magic.map SByte.conc) (encU32 h.version)
      (encU32 h.encryptionAlgorithm) (h.kdfSalt.map SByte.conc)
      (encU32 h.kdfIterations) (encU32 h.kdfMemory) (encU32 h.kdfParallelism)
      (hmacFieldBytes h.hmac) (zeros 168)
      (by simp [hm]) rfl rfl (by simp [hs]) rfl rfl rfl hh (length_zeros 168)]
  rw [concRegion_map_conc, concRegion_map_conc, readU32_encU32 _ hv,
    readU32_encU32 _ ha, readU32_encU32 _ hi, readU32_encU32 _ hme,
    readU32_encU32 _ hp]
  rw [hhm]

theorem length_serializeHeader (h : PasswoodHeader) (hm : h.magic.length = 4)
    (hs : h.kdfSalt.length = 32) (hh : (hmacFieldBytes h.hmac).length = 32) :
    (serializeHeader h).length = 256 := by
  rw [serializeHeader_layout h hm hs hh]
  simp [hm, hs, hh, length_encU32, length_zeros]

theorem length_ctBytes (c : Ct) : (ctBytes c).length = ctLen c := by
  simp [ctBytes]

theorem length_hmacFieldBytes_tag (t : HTag) :
    (hmacFieldBytes (.tag t)).length = 32 := by
  simp [hmacFieldBytes]

theorem length_zeroHmac : zeroHmac.length = 32 := by
  simp [zeroHmac]

theorem reassembleCt_ctBytes (c : Ct) : reassembleCt (ctBytes c) = some c := by
  have hr : ctBytes c = SByte.ctByte c 0 ::
      (List.range (c.plain.len + 15)).map (fun x => SByte.ctByte c (x + 1)) := by
    rw [ctBytes, ctLen, show c.plain.len + 16 = (c.plain.len + 15) + 1 from rfl,
      List.range_succ_eq_map]
    simp [List.map_map, Function.comp]
  rw [hr]
  simp [reassembleCt, ← hr]

/-- decodePasswoodFile unfolded past the length guard and header parse:
once the header is known, decode is the magic/version/HMAC checks followed by
decryption and JSON parsing of the fixed slices. -/
theorem decodePasswoodFile_eq (fileData : List SByte) (P : String)
    (hdr : PasswoodHeader)
    (hlen : ¬ fileData.length < HEADER_SIZE + 12)
    (hp : deserializeHeader (fileData.take HEADER_SIZE) = some hdr) :
    decodePasswoodFile fileData P =
      (if hdr.magic ≠ MAGIC_BYTES then .error .incorrectMagic else
       if hdr.version ≠ FILE_VERSION then .error (.unsupportedVersion hdr.version) else
       if ¬ verifyHMAC (serializeHeader { hdr with hmac := .bytes zeroHmac }) hdr.hmac
            (createHMACKey P hdr.kdfSalt) then .error .hmacVerificationFailed
       else
         match decryptData (fileData.drop (HEADER_SIZE + 12))
             (deriveKey P hdr.kdfSalt hdr.kdfIterations)
             ((fileData.drop HEADER_SIZE).take 12) with
         | none => .error .decryptionFailed
         | some jsonData =>
           match jsonParse jsonData with
           | none => .error .corruptedDatabase
           | some database => .ok database) := by
  unfold decodePasswoodFile
  rw [if_neg hlen, hp]

set_option maxHeartbeats 2000000 in
/-- Decoding an encoded file with the matching password succeeds and returns
the original collection, for every value of the algorithm header field: the
decoder never inspects that field. -/
theorem decode_encodeWithAlgorithm (db : PasswoodCollection) (P : String)
    (salt iv : List Nat) (alg : Nat)
    (hsalt : salt.length = 32) (hiv : iv.length = 12) (halg : alg < 4294967296) :
    decodePasswoodFile (encodeWithAlgorithm db P salt iv alg) P = .ok db := by
  set c : Ct := { key := deriveKey P salt 600000, iv := iv, plain := .ofDb db } with hc
  set hdr0 : PasswoodHeader :=
    { magic := MAGIC_BYTES, version := FILE_VERSION, encryptionAlgorithm := alg,
      kdfSalt := salt, kdfIterations := 600000, kdfMemory := 65536,
      kdfParallelism := 4, hmac := .bytes zeroHmac } with hhdr0
  set t : HTag := generateHMAC (serializeHeader hdr0) (createHMACKey P salt) with ht
  set hdr1 : PasswoodHeader := { hdr0 with hmac := .tag t } with hhdr1
  have hfile : encodeWithAlgorithm db P salt iv alg
      = serializeHeader hdr1 ++ iv.map SByte.conc ++ ctBytes c := rfl
  have hm1 : hdr1.magic.length = 4 := rfl
  have hs1 : hdr1.kdfSalt.length = 32 := hsalt
  have hh1 : (hmacFieldBytes hdr1.hmac).length = 32 := length_hmacFieldBytes_tag t
  have h256 : (serializeHeader hdr1).length = 256 :=
    length_serializeHeader hdr1 hm1 hs1 hh1
  have hparse : deserializeHeader (serializeHeader hdr1) = some hdr1 := by
    refine deserializeHeader_serializeHeader hdr1 hm1 hs1 hh1 ?_ ?_ ?_ ?_ ?_ ?_
    · show (1 : Nat) < 4294967296
      decide
    · exact halg
    · show (600000 : Nat) < 4294967296
      decide
    · show (65536 : Nat) < 4294967296
      decide
    · show (4 : Nat) < 4294967296
      decide
    · exact readHmacField_tag t
  have hguard : ¬ ((serializeHeader hdr1 ++ iv.map SByte.conc ++ ctBytes c).length
      < HEADER_SIZE + 12) := by
    simp [h256, hiv, length_ctBytes, HEADER_SIZE]
    omega
  have htake : (serializeHeader hdr1 ++ iv.map SByte.conc ++ ctBytes c).take HEADER_SIZE
      = serializeHeader hdr1 := by
    rw [List.append_assoc, show HEADER_SIZE = (serializeHeader hdr1).length from h256.symm,
      List.take_left]
  have hivslice : ((serializeHeader hdr1 ++ iv.map SByte.conc ++ ctBytes c).drop
        HEADER_SIZE).take 12 = iv.map SByte.conc := by
    rw [List.append_assoc, show HEADER_SIZE = (serializeHeader hdr1).length from h256.symm,
      List.drop_left, show (12 : Nat) = (iv.map SByte.conc).length by simp [hiv],
      List.take_left]
  have hctslice : (serializeHeader hdr1 ++ iv.map SByte.conc ++ ctBytes c).drop
        (HEADER_SIZE + 12) = ctBytes c := by
    rw [show HEADER_SIZE + 12
        = (serializeHeader hdr1 ++ iv.map SByte.conc).length by simp [h256, hiv, HEADER_SIZE],
      List.drop_left]
  have hdecrypt : decryptData (ctBytes c) (deriveKey P hdr1.kdfSalt hdr1.kdfIterations)
        (iv.map SByte.conc) = some (.ofDb db) := by
    show decryptData (ctBytes c) (deriveKey P salt 600000) (iv.map SByte.conc)
        = some (.ofDb db)
    simp [decryptData, reassembleCt_ctBytes, hc]
  have hverify : verifyHMAC
      (serializeHeader { hdr1 with hmac := .bytes zeroHmac }) hdr1.hmac
      (createHMACKey P hdr1.kdfSalt) = true := by
    show verifyHMAC (serializeHeader { hdr1 with hmac := .bytes zeroHmac })
        (.tag t) (createHMACKey P salt) = true
    have he : ({ hdr1 with hmac := .bytes zeroHmac } : PasswoodHeader) = hdr0 := rfl
    rw [he]
    simp [verifyHMAC, ht]
  have hmagic : hdr1.magic = MAGIC_BYTES := rfl
  have hver : hdr1.version = FILE_VERSION := rfl
  rw [hfile]
  rw [decodePasswoodFile_eq _ P hdr1 hguard (by rw [htake]; exact hparse)]
  rw [if_neg (show ¬ hdr1.magic ≠ MAGIC_BYTES from fun h => h hmagic)]
  rw [if_neg (show ¬ hdr1.version ≠ FILE_VERSION from fun h => h hver)]
  rw [if_neg (show ¬ ¬ (verifyHMAC (serializeHeader { hdr1 with hmac := .bytes zeroHmac })
      hdr1.hmac (createHMACKey P hdr1.kdfSalt) = true) from fun h => h hverify)]
  rw [hctslice, hivslice, hdecrypt]
  rfl

set_option maxHeartbeats 2000000 in
/-- Decoding an encoded file with any other password fails at the header
HMAC check, before decryption is attempted. -/
theorem decode_encode_wrongPassword (db : PasswoodCollection) (P Pbad : String)
    (salt iv : List Nat) (hsalt : salt.length = 32) (hiv : iv.length = 12)
    (hne : Pbad ≠ P) :
    decodePasswoodFile (encodePasswoodFile db P salt iv) Pbad
      = .error .hmacVerificationFailed := by
  set c : Ct := { key := deriveKey P salt 600000, iv := iv, plain := .ofDb db } with hc
  set hdr0 : PasswoodHeader :=
    { magic := MAGIC_BYTES, version := FILE_VERSION,
      encryptionAlgorithm := ENCRYPTION_ALGORITHM_AES_GCM,
      kdfSalt := salt, kdfIterations := 600000, kdfMemory := 65536,
      kdfParallelism := 4, hmac := .bytes zeroHmac } with hhdr0
  set t : HTag := generateHMAC (serializeHeader hdr0) (createHMACKey P salt) with ht
  set hdr1 : PasswoodHeader := { hdr0 with hmac := .tag t } with hhdr1
  have hfile : encodePasswoodFile db P salt iv
      = serializeHeader hdr1 ++ iv.map SByte.conc ++ ctBytes c := rfl
  have hm1 : hdr1.magic.length = 4 := rfl
  have hs1 : hdr1.kdfSalt.length = 32 := hsalt
  have hh1 : (hmacFieldBytes hdr1.hmac).length = 32 := length_hmacFieldBytes_tag t
  have h256 : (serializeHeader hdr1).length = 256 :=
    length_serializeHeader hdr1 hm1 hs1 hh1
  have hparse : deserializeHeader (serializeHeader hdr1) = some hdr1 := by
    refine deserializeHeader_serializeHeader hdr1 hm1 hs1 hh1 ?_ ?_ ?_ ?_ ?_ ?_
    · show (1 : Nat) < 4294967296
      decide
    · show (1 : Nat) < 4294967296
      decide
    · show (600000 : Nat) < 4294967296
      decide
    · show (65536 : Nat) < 4294967296
      decide
    · show (4 : Nat) < 4294967296
      decide
    · exact readHmacField_tag t
  have hguard : ¬ ((serializeHeader hdr1 ++ iv.map SByte.conc ++ ctBytes c).length
      < HEADER_SIZE + 12) := by
    simp [h256, hiv, length_ctBytes, HEADER_SIZE]
    omega
  have htake : (serializeHeader hdr1 ++ iv.map SByte.conc ++ ctBytes c).take HEADER_SIZE
      = serializeHeader hdr1 := by
    rw [List.append_assoc, show HEADER_SIZE = (serializeHeader hdr1).length from h256.symm,
      List.take_left]
  have hmagic : hdr1.magic = MAGIC_BYTES := rfl
  have hver : hdr1.version = FILE_VERSION := rfl
  have hverifyFalse : verifyHMAC
      (serializeHeader { hdr1 with hmac := .bytes zeroHmac }) hdr1.hmac
      (createHMACKey Pbad hdr1.kdfSalt) = false := by
    show verifyHMAC (serializeHeader { hdr1 with hmac := .bytes zeroHmac })
        (.tag t) (createHMACKey Pbad salt) = false
    have he : ({ hdr1 with hmac := .bytes zeroHmac } : PasswoodHeader) = hdr0 := rfl
    rw [he, ht]
    simp only [verifyHMAC, decide_eq_false_iff_not, HmacField.tag.injEq]
    intro hcontra
    have hkey : createHMACKey P salt = createHMACKey Pbad salt := by
      have := congrArg HTag.key hcontra
      simpa [generateHMAC] using this
    have : P = Pbad := by
      simpa [createHMACKey, CryptoKey.mk.injEq] using hkey
    exact hne this.symm
  rw [hfile]
  rw [decodePasswoodFile_eq _ Pbad hdr1 hguard (by rw [htake]; exact hparse)]
  rw [if_neg (show ¬ hdr1.magic ≠ MAGIC_BYTES from fun h => h hmagic)]
  rw [if_neg (show ¬ hdr1.version ≠ FILE_VERSION from fun h => h hver)]
  rw [if_pos (show ¬ (verifyHMAC (serializeHeader { hdr1 with hmac := .bytes zeroHmac })
      hdr1.hmac (createHMACKey Pbad hdr1.kdfSalt) = true) from by
    rw [hverifyFalse]
    decide)]

/-- C1: for every vault V and password P (and any 32-byte salt and 12-byte IV
drawn by the encoder), decodePasswoodFile (encodePasswoodFile V P) P returns
exactly V; the round trip is lossless (encodePasswoodFile itself never
touches the modified timestamp, so equality is exact). -/
theorem claim_C1_roundtrip (db : PasswoodCollection) (P : String)
    (salt iv : List Nat) (hsalt : salt.length = 32) (hiv : iv.length = 12) :
    decodePasswoodFile (encodePasswoodFile db P salt iv) P = .ok db :=
  decode_encodeWithAlgorithm db P salt iv ENCRYPTION_ALGORITHM_AES_GCM hsalt hiv
    (by decide)

theorem claim_C1_roundtrip_witness :
    sampleSalt.length = 32 ∧ sampleIv.length = 12 ∧
    decodePasswoodFile (encodePasswoodFile sampleDb "hunter2" sampleSalt sampleIv)
      "hunter2" = .ok sampleDb :=
  ⟨by decide, by decide,
    claim_C1_roundtrip sampleDb "hunter2" sampleSalt sampleIv (by decide) (by decide)⟩

/-- C2: decoding under any password other than the one used to encode always
fails (at the header HMAC check, before decryption), never returns a vault,
and the failure is surfaced to the end user by UnlockDialog with the same
"incorrect password or corrupted file" message as an AEAD (decryption)
failure, merging the two causes. -/
theorem claim_C2_wrong_password (db : PasswoodCollection) (P Pbad : String)
    (salt iv : List Nat) (hsalt : salt.length = 32) (hiv : iv.length = 12)
    (hne : Pbad ≠ P) :
    decodePasswoodFile (encodePasswoodFile db P salt iv) Pbad
        = .error .hmacVerificationFailed
    ∧ unlockErrorMessage .hmacVerificationFailed
        = unlockErrorMessage .decryptionFailed :=
  ⟨decode_encode_wrongPassword db P Pbad salt iv hsalt hiv hne, rfl⟩

theorem claim_C2_wrong_password_witness :
    sampleSalt.length = 32 ∧ sampleIv.length = 12 ∧ "wrong-password" ≠ "hunter2" ∧
    decodePasswoodFile (encodePasswoodFile sampleDb "hunter2" sampleSalt sampleIv)
      "wrong-password" = .error .hmacVerificationFailed :=
  ⟨by decide, by decide, by decide,
    (claim_C2_wrong_password sampleDb "hunter2" "wrong-password" sampleSalt sampleIv
      (by decide) (by decide) (by decide)).1⟩

/-- C10: decodePasswoodFile never validates the header's encryptionAlgorithm
field: a file that passes the length, magic, version and header-HMAC checks
is decrypted with AES-GCM whatever algorithm id its header declares, and in
particular an id other than 1 is never rejected. -/
theorem claim_C10_algorithm_not_validated (db : PasswoodCollection) (P : String)
    (salt iv : List Nat) (alg : Nat)
    (hsalt : salt.length = 32) (hiv : iv.length = 12) (halg : alg < 4294967296) :
    decodePasswoodFile (encodeWithAlgorithm db P salt iv alg) P = .ok db :=
  decode_encodeWithAlgorithm db P salt iv alg hsalt hiv halg

theorem claim_C10_algorithm_not_validated_witness :
    sampleSalt.length = 32 ∧ sampleIv.length = 12 ∧ (2 : Nat) < 4294967296 ∧
    decodePasswoodFile (encodeWithAlgorithm sampleDb "hunter2" sampleSalt sampleIv 2)
      "hunter2" = .ok sampleDb :=
  ⟨by decide, by decide, by decide,
    claim_C10_algorithm_not_validated sampleDb "hunter2" sampleSalt sampleIv 2
      (by decide) (by decide) (by decide)⟩

/-- C5: header serialization is lossless for every header whose magic is 4
ASCII bytes, whose salt and hmac are exactly 32 bytes and whose integer
fields fit in uint32: deserializing the serialized header returns the header
unchanged; the buffer is the fixed 256-byte size and the integer fields sit
little-endian at their fixed offsets (shown here for version at offset 4 and
kdfIterations at offset 44, read back by the little-endian reader). -/
theorem claim_C5_header_roundtrip (h : PasswoodHeader) (bs : List Nat)
    (hhm : h.hmac = .bytes bs) (hbs : bs.length = 32)
    (hm : h.magic.length = 4) (hascii : ∀ b ∈ h.magic, b < 128)
    (hs : h.kdfSalt.length = 32)
    (hv : h.version < 4294967296) (ha : h.encryptionAlgorithm < 4294967296)
    (hi : h.kdfIterations < 4294967296) (hme : h.kdfMemory < 4294967296)
    (hp : h.kdfParallelism < 4294967296) :
    deserializeHeader (serializeHeader h) = some h
    ∧ (serializeHeader h).length = 256
    ∧ readU32 (((serializeHeader h).drop 4).take 4) = some h.version
    ∧ readU32 (((serializeHeader h).drop 44).take 4) = some h.kdfIterations := by
  have hh : (hmacFieldBytes h.hmac).length = 32 := by
    rw [hhm]
    simpa [hmacFieldBytes] using hbs
  have hhmrt : readHmacField (hmacFieldBytes h.hmac) = h.hmac := by
    rw [hhm]
    exact readHmacField_map_conc bs
  refine ⟨deserializeHeader_serializeHeader h hm hs hh hv ha hi hme hp hhmrt,
    length_serializeHeader h hm hs hh, ?_, ?_⟩
  · rw [serializeHeader_layout h hm hs hh]
    rw [show ((h.magic.map SByte.conc ++ (encU32 h.version ++ (encU32 h.encryptionAlgorithm ++
      (h.kdfSalt.map SByte.conc ++ (encU32 h.kdfIterations ++ (encU32 h.kdfMemory ++
      (encU32 h.kdfParallelism ++ (hmacFieldBytes h.hmac ++ zeros 168)))))))).drop 4).take 4
        = encU32 h.version from by
      simp [List.drop_append_eq_append_drop, List.take_append_eq_append_take,
        List.drop_eq_nil_of_le, List.take_of_length_le, hm, length_encU32]]
    exact readU32_encU32 _ hv
  · rw [serializeHeader_layout h hm hs hh]
    rw [show ((h.magic.map SByte.conc ++ (encU32 h.version ++ (encU32 h.encryptionAlgorithm ++
      (h.kdfSalt.map SByte.conc ++ (encU32 h.kdfIterations ++ (encU32 h.kdfMemory ++
      (encU32 h.kdfParallelism ++ (hmacFieldBytes h.hmac ++ zeros 168)))))))).drop 44).take 4
        = encU32 h.kdfIterations from by
      simp [List.drop_append_eq_append_drop, List.take_append_eq_append_take,
        List.drop_eq_nil_of_le, List.take_of_length_le, hm, hs, length_encU32]]
    exact readU32_encU32 _ hi

theorem claim_C5_header_roundtrip_witness :
    sampleHeader.hmac = .bytes (List.replicate 32 9)
    ∧ (List.replicate 32 9 : List Nat).length = 32
    ∧ sampleHeader.magic.length = 4
    ∧ (∀ b ∈ sampleHeader.magic, b < 128)
    ∧ deserializeHeader (serializeHeader sampleHeader) = some sampleHeader :=
  ⟨rfl, by decide, by decide, by decide,
    (claim_C5_header_roundtrip sampleHeader (List.replicate 32 9) rfl (by decide)
      (by decide) (by decide) (by decide) (by decide) (by decide) (by decide)
      (by decide) (by decide)).1⟩

theorem length_flipBitAt (l : List SByte) (i k : Nat) :
    (flipBitAt l i k).length = l.length := by
  induction l generalizing i with
  | nil => rfl
  | cons b rest ih =>
    cases i with
    | zero => rfl
    | succ j => simp [flipBitAt, ih]

theorem flipBitAt_append_left (a b : List SByte) (i k : Nat) (h : i < a.length) :
    flipBitAt (a ++ b) i k = flipBitAt a i k ++ b := by
  induction a generalizing i with
  | nil => simp at h
  | cons x rest ih =>
    cases i with
    | zero => simp [flipBitAt]
    | succ j =>
      simp only [List.cons_append, flipBitAt, List.cons.injEq, true_and]
      exact ih j (by simpa using h)

theorem flipBitAt_append_right (a b : List SByte) (i k : Nat) (h : a.length ≤ i) :
    flipBitAt (a ++ b) i k = a ++ flipBitAt b (i - a.length) k := by
  induction a generalizing i with
  | nil => simp
  | cons x rest ih =>
    cases i with
    | zero => simp at h
    | succ j =>
      simp only [List.cons_append, flipBitAt, List.cons.injEq, true_and,
        List.length_cons, Nat.succ_sub_succ]
      exact ih j (by simpa using h)

theorem corrupt_ne_self (s : SByte) : ∀ k, SByte.corrupt s k ≠ s := by
  induction s with
  | conc b => intro k h; exact SByte.noConfusion h
  | hmacByte t idx => intro k h; exact SByte.noConfusion h
  | ctByte c idx => intro k h; exact SByte.noConfusion h
  | corrupt s' k' ih =>
    intro k h
    injection h with h1 h2
    exact ih k' h1

theorem flipSByte_ne (s : SByte) (k : Nat) : flipSByte s k ≠ s := by
  cases s with
  | conc b =>
    simp only [flipSByte, ne_eq, SByte.conc.injEq]
    intro h
    have h2 : b ^^^ 2 ^ k = b ^^^ 0 := by simpa using h
    have h3 : (2 : Nat) ^ k = 0 := Nat.xor_right_injective h2
    have hpos : 0 < (2 : Nat) ^ k := Nat.pow_pos (by decide)
    omega
  | hmacByte t idx => exact corrupt_ne_self _ k
  | ctByte c idx => exact corrupt_ne_self _ k
  | corrupt s' k' => exact corrupt_ne_self _ k

theorem flipBitAt_ne (l : List SByte) (i k : Nat) (h : i < l.length) :
    flipBitAt l i k ≠ l := by
  induction l generalizing i with
  | nil => simp at h
  | cons b rest ih =>
    cases i with
    | zero =>
      simp only [flipBitAt, ne_eq, List.cons.injEq, not_and]
      intro hb
      exact absurd hb (flipSByte_ne b k)
    | succ j =>
      simp only [flipBitAt, ne_eq, List.cons.injEq, true_and]
      exact ih j (by simpa using h)

theorem flipBitAt_map_conc (l : List Nat) (i k : Nat) :
    flipBitAt (l.map SByte.conc) i k = (flipNatAt l i k).map SByte.conc := by
  induction l generalizing i with
  | nil => rfl
  | cons b rest ih =>
    cases i with
    | zero => rfl
    | succ j => simp [flipBitAt, flipNatAt, ih]

theorem length_flipNatAt (l : List Nat) (i k : Nat) :
    (flipNatAt l i k).length = l.length := by
  induction l generalizing i with
  | nil => rfl
  | cons b rest ih =>
    cases i with
    | zero => rfl
    | succ j => simp [flipNatAt, ih]

theorem flipNatAt_ne (l : List Nat) (i k : Nat) (h : i < l.length) :
    flipNatAt l i k ≠ l := by
  induction l generalizing i with
  | nil => simp at h
  | cons b rest ih =>
    cases i with
    | zero =>
      simp only [flipNatAt, ne_eq, List.cons.injEq, not_and]
      intro hb
      have h2 : b ^^^ 2 ^ k = b ^^^ 0 := by simpa using hb
      have h3 : (2 : Nat) ^ k = 0 := Nat.xor_right_injective h2
      have hpos : 0 < (2 : Nat) ^ k := Nat.pow_pos (by decide)
      omega
    | succ j =>
      simp only [flipNatAt, ne_eq, List.cons.injEq, true_and]
      exact ih j (by simpa using h)

theorem xor_bit_ne (b k : Nat) : b ^^^ 2 ^ k ≠ b := by
  intro h
  have h2 : b ^^^ 2 ^ k = b ^^^ 0 := by simpa using h
  have h3 : (2 : Nat) ^ k = 0 := Nat.xor_right_injective h2
  have hpos : 0 < (2 : Nat) ^ k := Nat.pow_pos (by decide)
  omega

theorem xor_bit_lt_256 (b k : Nat) (hb : b < 256) (hk : k < 8) :
    b ^^^ 2 ^ k < 256 := by
  have h1 : b < 2 ^ 8 := by omega
  have h2 : (2 : Nat) ^ k < 2 ^ 8 := Nat.pow_lt_pow_right (by decide) hk
  have := Nat.xor_lt_two_pow h1 h2
  omega

theorem readU32_flipBitAt (n j k : Nat) (hn : n < 4294967296) (hj : j < 4)
    (hk : k < 8) :
    ∃ m, readU32 (flipBitAt (encU32 n) j k) = some m ∧ m ≠ n ∧ m < 4294967296 := by
  have hb0 : n % 256 < 256 := Nat.mod_lt _ (by decide)
  have hb1 : n / 256 % 256 < 256 := Nat.mod_lt _ (by decide)
  have hb2 : n / 65536 % 256 < 256 := Nat.mod_lt _ (by decide)
  have hb3 : n / 16777216 % 256 < 256 := Nat.mod_lt _ (by decide)
  interval_cases j
  · refine ⟨(n % 256 ^^^ 2 ^ k) + 256 * (n / 256 % 256) + 65536 * (n / 65536 % 256)
      + 16777216 * (n / 16777216 % 256), ?_, ?_, ?_⟩
    · simp [encU32, flipBitAt, flipSByte, readU32, concRegion, decU32]
    · have hne := xor_bit_ne (n % 256) k
      have hlt := xor_bit_lt_256 (n % 256) k hb0 hk
      omega
    · have hlt := xor_bit_lt_256 (n % 256) k hb0 hk
      omega
  · refine ⟨n % 256 + 256 * (n / 256 % 256 ^^^ 2 ^ k) + 65536 * (n / 65536 % 256)
      + 16777216 * (n / 16777216 % 256), ?_, ?_, ?_⟩
    · simp [encU32, flipBitAt, flipSByte, readU32, concRegion, decU32]
    · have hne := xor_bit_ne (n / 256 % 256) k
      have hlt := xor_bit_lt_256 (n / 256 % 256) k hb1 hk
      omega
    · have hlt := xor_bit_lt_256 (n / 256 % 256) k hb1 hk
      omega
  · refine ⟨n % 256 + 256 * (n / 256 % 256) + 65536 * (n / 65536 % 256 ^^^ 2 ^ k)
      + 16777216 * (n / 16777216 % 256), ?_, ?_, ?_⟩
    · simp [encU32, flipBitAt, flipSByte, readU32, concRegion, decU32]
    · have hne := xor_bit_ne (n / 65536 % 256) k
      have hlt := xor_bit_lt_256 (n / 65536 % 256) k hb2 hk
      omega
    · have hlt := xor_bit_lt_256 (n / 65536 % 256) k hb2 hk
      omega
  · refine ⟨n % 256 + 256 * (n / 256 % 256) + 65536 * (n / 65536 % 256)
      + 16777216 * (n / 16777216 % 256 ^^^ 2 ^ k), ?_, ?_, ?_⟩
    · simp [encU32, flipBitAt, flipSByte, readU32, concRegion, decU32]
    · have hne := xor_bit_ne (n / 16777216 % 256) k
      have hlt := xor_bit_lt_256 (n / 16777216 % 256) k hb3 hk
      omega
    · have hlt := xor_bit_lt_256 (n / 16777216 % 256) k hb3 hk
      omega

theorem allConc_append {a b : List SByte} (ha : AllConc a) (hb : AllConc b) :
    AllConc (a ++ b) := by
  intro s hs
  rcases List.mem_append.mp hs with h | h
  · exact ha s h
  · exact hb s h

theorem allConc_map_conc (l : List Nat) : AllConc (l.map SByte.conc) := by
  intro s hs
  obtain ⟨b, _, rfl⟩ := List.mem_map.mp hs
  exact ⟨b, rfl⟩

theorem allConc_encU32 (n : Nat) : AllConc (encU32 n) := by
  intro s hs
  simp only [encU32, List.mem_cons, List.mem_singleton, List.not_mem_nil] at hs
  rcases hs with h | h | h | h | h
  · exact ⟨_, h⟩
  · exact ⟨_, h⟩
  · exact ⟨_, h⟩
  · exact ⟨_, h⟩
  · cases h

theorem allConc_zeros (n : Nat) : AllConc (zeros n) := by
  intro s hs
  rw [zeros] at hs
  exact ⟨0, (List.eq_of_mem_replicate hs)⟩

theorem allConc_serializeHeader (h : PasswoodHeader) (bs : List Nat)
    (hhm : h.hmac = .bytes bs) (hm : h.magic.length = 4)
    (hs : h.kdfSalt.length = 32) (hbs : bs.length = 32) :
    AllConc (serializeHeader h) := by
  have hh : (hmacFieldBytes h.hmac).length = 32 := by
    rw [hhm]
    simpa [hmacFieldBytes] using hbs
  rw [serializeHeader_layout h hm hs hh]
  refine allConc_append (allConc_map_conc _) (allConc_append (allConc_encU32 _)
    (allConc_append (allConc_encU32 _) (allConc_append (allConc_map_conc _)
    (allConc_append (allConc_encU32 _) (allConc_append (allConc_encU32 _)
    (allConc_append (allConc_encU32 _) (allConc_append ?_ (allConc_zeros _))))))))
  rw [hhm]
  exact allConc_map_conc bs

theorem map_val_inj {l1 l2 : List SByte} (h1 : AllConc l1) (h2 : AllConc l2)
    (heq : l1.map SByte.val = l2.map SByte.val) : l1 = l2 := by
  induction l1 generalizing l2 with
  | nil =>
    cases l2 with
    | nil => rfl
    | cons y r2 => simp at heq
  | cons x r ih =>
    cases l2 with
    | nil => simp at heq
    | cons y r2 =>
      simp only [List.map_cons, List.cons.injEq] at heq
      obtain ⟨bx, rfl⟩ := h1 x (List.mem_cons_self x r)
      obtain ⟨b2, rfl⟩ := h2 y (List.mem_cons_self y r2)
      simp only [SByte.val] at heq
      rw [heq.1]
      rw [ih (fun s hs => h1 s (List.mem_cons_of_mem _ hs))
        (fun s hs => h2 s (List.mem_cons_of_mem _ hs)) heq.2]

theorem hmacTagBytes_cons (t : HTag) :
    (List.range 32).map (SByte.hmacByte t)
      = SByte.hmacByte t 0 ::
        (List.range 31).map (fun x => SByte.hmacByte t (x + 1)) := by
  rw [show (32 : Nat) = 31 + 1 from rfl, List.range_succ_eq_map]
  simp [List.map_map, Function.comp]

theorem readHmacField_flip_tag (t : HTag) (j k : Nat) (hj : j < 32) :
    ∃ r, readHmacField (flipBitAt ((List.range 32).map (SByte.hmacByte t)) j k)
      = .junk r := by
  rw [hmacTagBytes_cons t]
  cases j with
  | zero =>
    exact ⟨SByte.corrupt (SByte.hmacByte t 0) k ::
        (List.range 31).map (fun x => SByte.hmacByte t (x + 1)),
      by simp [flipBitAt, flipSByte, readHmacField, concRegion]⟩
  | succ j' =>
    have hlen : ((List.range 31).map (fun x => SByte.hmacByte t (x + 1))).length = 31 := by
      simp
    have hne : flipBitAt ((List.range 31).map (fun x => SByte.hmacByte t (x + 1))) j' k
        ≠ (List.range 31).map (fun x => SByte.hmacByte t (x + 1)) := by
      apply flipBitAt_ne
      rw [hlen]
      omega
    have hcond : ¬ (SByte.hmacByte t 0 ::
        flipBitAt ((List.range 31).map (fun x => SByte.hmacByte t (x + 1))) j' k
          = (List.range 32).map (SByte.hmacByte t)) := by
      rw [hmacTagBytes_cons t]
      intro hcontra
      rw [List.cons.injEq] at hcontra
      exact hne hcontra.2
    refine ⟨SByte.hmacByte t 0 ::
        flipBitAt ((List.range 31).map (fun x => SByte.hmacByte t (x + 1))) j' k, ?_⟩
    simp only [flipBitAt]
    simp only [readHmacField]
    rw [if_neg hcond]

theorem ctBytes_cons (c : Ct) :
    ctBytes c = SByte.ctByte c 0 ::
      (List.range (c.plain.len + 15)).map (fun x => SByte.ctByte c (x + 1)) := by
  rw [ctBytes, ctLen, show c.plain.len + 16 = (c.plain.len + 15) + 1 from rfl,
    List.range_succ_eq_map]
  simp [List.map_map, Function.comp]

theorem reassembleCt_flip (c : Ct) (j k : Nat) (hj : j < ctLen c) :
    reassembleCt (flipBitAt (ctBytes c) j k) = none := by
  rw [ctBytes_cons c]
  cases j with
  | zero =>
    simp [flipBitAt, flipSByte, reassembleCt]
  | succ j' =>
    have hne : flipBitAt ((List.range (c.plain.len + 15)).map
          (fun x => SByte.ctByte c (x + 1))) j' k
        ≠ (List.range (c.plain.len + 15)).map (fun x => SByte.ctByte c (x + 1)) := by
      apply flipBitAt_ne
      rw [show ((List.range (c.plain.len + 15)).map
          (fun x => SByte.ctByte c (x + 1))).length = c.plain.len + 15 by simp]
      rw [ctLen] at hj
      omega
    have hcond : ¬ (SByte.ctByte c 0 ::
        flipBitAt ((List.range (c.plain.len + 15)).map
          (fun x => SByte.ctByte c (x + 1))) j' k = ctBytes c) := by
      rw [ctBytes_cons c]
      intro hcontra
      rw [List.cons.injEq] at hcontra
      exact hne hcontra.2
    simp only [flipBitAt]
    simp only [reassembleCt]
    rw [if_neg hcond]

/-- serializeHeader is injective on headers of the reserved field shapes (a
consequence of the round trip). -/
theorem serializeHeader_inj (h1 h2 : PasswoodHeader)
    (hm1 : h1.magic.length = 4) (hs1 : h1.kdfSalt.length = 32)
    (hh1 : (hmacFieldBytes h1.hmac).length = 32)
    (hv1 : h1.version < 4294967296) (ha1 : h1.encryptionAlgorithm < 4294967296)
    (hi1 : h1.kdfIterations < 4294967296) (hme1 : h1.kdfMemory < 4294967296)
    (hp1 : h1.kdfParallelism < 4294967296)
    (hhm1 : readHmacField (hmacFieldBytes h1.hmac) = h1.hmac)
    (hm2 : h2.magic.length = 4) (hs2 : h2.kdfSalt.length = 32)
    (hh2 : (hmacFieldBytes h2.hmac).length = 32)
    (hv2 : h2.version < 4294967296) (ha2 : h2.encryptionAlgorithm < 4294967296)
    (hi2 : h2.kdfIterations < 4294967296) (hme2 : h2.kdfMemory < 4294967296)
    (hp2 : h2.kdfParallelism < 4294967296)
    (hhm2 : readHmacField (hmacFieldBytes h2.hmac) = h2.hmac)
    (heq : serializeHeader h1 = serializeHeader h2) : h1 = h2 := by
  have r1 := deserializeHeader_serializeHeader h1 hm1 hs1 hh1 hv1 ha1 hi1 hme1 hp1 hhm1
  have r2 := deserializeHeader_serializeHeader h2 hm2 hs2 hh2 hv2 ha2 hi2 hme2 hp2 hhm2
  rw [heq, r2] at r1
  exact (Option.some.injEq _ _).mp r1.symm

theorem encodePasswoodFile_parts (database : PasswoodCollection) (P : String)
    (salt iv : List Nat) :
    encodePasswoodFile database P salt iv
      = serializeHeader (encHdr1 P salt) ++ iv.map SByte.conc
        ++ ctBytes (encCt database P salt iv) := rfl

theorem length_encHeader (P : String) (salt : List Nat) (hsalt : salt.length = 32) :
    (serializeHeader (encHdr1 P salt)).length = 256 :=
  length_serializeHeader _ rfl hsalt (length_hmacFieldBytes_tag _)

theorem decode_flip_magic (db : PasswoodCollection) (P : String)
    (salt iv : List Nat) (i k : Nat)
    (hsalt : salt.length = 32) (hiv : iv.length = 12) (hi : i < 4) :
    ∃ e, decodePasswoodFile (flipBitAt (encodePasswoodFile db P salt iv) i k) P
      = .error e := by
  have h256 := length_encHeader P salt hsalt
  have hlay := serializeHeader_layout (encHdr1 P salt) rfl hsalt
    (length_hmacFieldBytes_tag _)
  rw [encodePasswoodFile_parts]
  rw [flipBitAt_append_left _ _ i k (by simp [h256, hiv]; omega)]
  rw [flipBitAt_append_left _ _ i k (by rw [h256]; omega)]
  have h256f : (flipBitAt (serializeHeader (encHdr1 P salt)) i k).length = 256 := by
    rw [length_flipBitAt, h256]
  have hmagic : (encHdr1 P salt).magic = MAGIC_BYTES := rfl
  have hflip : flipBitAt (serializeHeader (encHdr1 P salt)) i k
      = (flipNatAt MAGIC_BYTES i k).map SByte.conc ++
        (encU32 (encHdr1 P salt).version ++ (encU32 (encHdr1 P salt).encryptionAlgorithm ++
        ((encHdr1 P salt).kdfSalt.map SByte.conc ++ (encU32 (encHdr1 P salt).kdfIterations ++
        (encU32 (encHdr1 P salt).kdfMemory ++ (encU32 (encHdr1 P salt).kdfParallelism ++
        (hmacFieldBytes (encHdr1 P salt).hmac ++ zeros 168))))))) := by
    rw [hlay, flipBitAt_append_left _ _ i k (by simp [hmagic, MAGIC_BYTES]; omega),
      hmagic, flipBitAt_map_conc]
  have hlenm : ((flipNatAt MAGIC_BYTES i k).map SByte.conc).length = 4 := by
    simp [length_flipNatAt, MAGIC_BYTES]
  have hparse : deserializeHeader (flipBitAt (serializeHeader (encHdr1 P salt)) i k)
      = some { magic := flipNatAt MAGIC_BYTES i k, version := FILE_VERSION,
               encryptionAlgorithm := ENCRYPTION_ALGORITHM_AES_GCM, kdfSalt := salt,
               kdfIterations := 600000, kdfMemory := 65536, kdfParallelism := 4,
               hmac := .tag (encTag P salt) } := by
    rw [hflip, deserializeHeader_segments ((flipNatAt MAGIC_BYTES i k).map SByte.conc)
      (encU32 (encHdr1 P salt).version) (encU32 (encHdr1 P salt).encryptionAlgorithm)
      ((encHdr1 P salt).kdfSalt.map SByte.conc) (encU32 (encHdr1 P salt).kdfIterations)
      (encU32 (encHdr1 P salt).kdfMemory) (encU32 (encHdr1 P salt).kdfParallelism)
      (hmacFieldBytes (encHdr1 P salt).hmac) (zeros 168)
      hlenm rfl rfl (by simpa using hsalt) rfl rfl
      rfl (length_hmacFieldBytes_tag _) (length_zeros 168)]
    have hv32 : (encHdr1 P salt).version < 4294967296 := by
      show (1 : Nat) < 4294967296
      decide
    have ha32 : (encHdr1 P salt).encryptionAlgorithm < 4294967296 := by
      show (1 : Nat) < 4294967296
      decide
    have hi32 : (encHdr1 P salt).kdfIterations < 4294967296 := by
      show (600000 : Nat) < 4294967296
      decide
    have hme32 : (encHdr1 P salt).kdfMemory < 4294967296 := by
      show (65536 : Nat) < 4294967296
      decide
    have hp32 : (encHdr1 P salt).kdfParallelism < 4294967296 := by
      show (4 : Nat) < 4294967296
      decide
    rw [concRegion_map_conc, concRegion_map_conc, readU32_encU32 _ hv32,
      readU32_encU32 _ ha32, readU32_encU32 _ hi32, readU32_encU32 _ hme32,
      readU32_encU32 _ hp32]
    rw [show readHmacField (hmacFieldBytes (encHdr1 P salt).hmac)
        = .tag (encTag P salt) from readHmacField_tag _]
    rfl
  have hguard : ¬ ((flipBitAt (serializeHeader (encHdr1 P salt)) i k ++ iv.map SByte.conc
      ++ ctBytes (encCt db P salt iv)).length < HEADER_SIZE + 12) := by
    simp [h256f, hiv, length_ctBytes, HEADER_SIZE]
    omega
  have htake : (flipBitAt (serializeHeader (encHdr1 P salt)) i k ++ iv.map SByte.conc
      ++ ctBytes (encCt db P salt iv)).take HEADER_SIZE
      = flipBitAt (serializeHeader (encHdr1 P salt)) i k := by
    rw [List.append_assoc, show HEADER_SIZE
      = (flipBitAt (serializeHeader (encHdr1 P salt)) i k).length from h256f.symm,
      List.take_left]
  rw [decodePasswoodFile_eq _ P _ hguard (by rw [htake]; exact hparse)]
  rw [if_pos (show (flipNatAt MAGIC_BYTES i k) ≠ MAGIC_BYTES from
    flipNatAt_ne MAGIC_BYTES i k (by rw [show MAGIC_BYTES.length = 4 from rfl]; omega))]
  exact ⟨.incorrectMagic, rfl⟩

theorem length_hmacFieldBytes_zeroHmac :
    (hmacFieldBytes (.bytes zeroHmac)).length = 32 := by
  simp [hmacFieldBytes, zeroHmac]

theorem decode_flip_version (db : PasswoodCollection) (P : String)
    (salt iv : List Nat) (i k : Nat)
    (hsalt : salt.length = 32) (hiv : iv.length = 12) (hk : k < 8)
    (hi4 : 4 ≤ i) (hi8 : i < 8) :
    ∃ e, decodePasswoodFile (flipBitAt (encodePasswoodFile db P salt iv) i k) P
      = .error e := by
  obtain ⟨m', hrm, hne', hlt'⟩ := readU32_flipBitAt 1 (i - 4) k (by decide)
    (by omega) hk
  have h256 := length_encHeader P salt hsalt
  have hlay := serializeHeader_layout (encHdr1 P salt) rfl hsalt
    (length_hmacFieldBytes_tag _)
  rw [encodePasswoodFile_parts]
  rw [flipBitAt_append_left _ _ i k (by simp [h256, hiv]; omega)]
  rw [flipBitAt_append_left _ _ i k (by rw [h256]; omega)]
  have h256f : (flipBitAt (serializeHeader (encHdr1 P salt)) i k).length = 256 := by
    rw [length_flipBitAt, h256]
  have hflip : flipBitAt (serializeHeader (encHdr1 P salt)) i k
      = (encHdr1 P salt).magic.map SByte.conc ++
        (flipBitAt (encU32 1) (i - 4) k ++ (encU32 (encHdr1 P salt).encryptionAlgorithm ++
        ((encHdr1 P salt).kdfSalt.map SByte.conc ++ (encU32 (encHdr1 P salt).kdfIterations ++
        (encU32 (encHdr1 P salt).kdfMemory ++ (encU32 (encHdr1 P salt).kdfParallelism ++
        (hmacFieldBytes (encHdr1 P salt).hmac ++ zeros 168))))))) := by
    rw [hlay]
    rw [flipBitAt_append_right _ _ i k
      (by simp [show (encHdr1 P salt).magic = MAGIC_BYTES from rfl, MAGIC_BYTES]; omega)]
    rw [show (List.map SByte.conc (encHdr1 P salt).magic).length = 4 from rfl]
    rw [flipBitAt_append_left _ _ (i - 4) k (by simp [length_encU32]; omega)]
    rw [show encU32 (encHdr1 P salt).version = encU32 1 from rfl]
  have hlenv : (flipBitAt (encU32 1) (i - 4) k).length = 4 := by
    rw [length_flipBitAt, length_encU32]
  have hparse : deserializeHeader (flipBitAt (serializeHeader (encHdr1 P salt)) i k)
      = some { magic := MAGIC_BYTES, version := m',
               encryptionAlgorithm := ENCRYPTION_ALGORITHM_AES_GCM, kdfSalt := salt,
               kdfIterations := 600000, kdfMemory := 65536, kdfParallelism := 4,
               hmac := .tag (encTag P salt) } := by
    rw [hflip, deserializeHeader_segments ((encHdr1 P salt).magic.map SByte.conc)
      (flipBitAt (encU32 1) (i - 4) k) (encU32 (encHdr1 P salt).encryptionAlgorithm)
      ((encHdr1 P salt).kdfSalt.map SByte.conc) (encU32 (encHdr1 P salt).kdfIterations)
      (encU32 (encHdr1 P salt).kdfMemory) (encU32 (encHdr1 P salt).kdfParallelism)
      (hmacFieldBytes (encHdr1 P salt).hmac) (zeros 168)
      rfl hlenv rfl (by simpa using hsalt) rfl rfl
      rfl (length_hmacFieldBytes_tag _) (length_zeros 168)]
    have ha32 : (encHdr1 P salt).encryptionAlgorithm < 4294967296 := by
      show (1 : Nat) < 4294967296
      decide
    have hi32 : (encHdr1 P salt).kdfIterations < 4294967296 := by
      show (600000 : Nat) < 4294967296
      decide
    have hme32 : (encHdr1 P salt).kdfMemory < 4294967296 := by
      show (65536 : Nat) < 4294967296
      decide
    have hp32 : (encHdr1 P salt).kdfParallelism < 4294967296 := by
      show (4 : Nat) < 4294967296
      decide
    rw [concRegion_map_conc, concRegion_map_conc, hrm, readU32_encU32 _ ha32,
      readU32_encU32 _ hi32, readU32_encU32 _ hme32, readU32_encU32 _ hp32]
    rw [show readHmacField (hmacFieldBytes (encHdr1 P salt).hmac)
        = .tag (encTag P salt) from readHmacField_tag _]
    rfl
  have hguard : ¬ ((flipBitAt (serializeHeader (encHdr1 P salt)) i k ++ iv.map SByte.conc
      ++ ctBytes (encCt db P salt iv)).length < HEADER_SIZE + 12) := by
    simp [h256f, hiv, length_ctBytes, HEADER_SIZE]
    omega
  have htake : (flipBitAt (serializeHeader (encHdr1 P salt)) i k ++ iv.map SByte.conc
      ++ ctBytes (encCt db P salt iv)).take HEADER_SIZE
      = flipBitAt (serializeHeader (encHdr1 P salt)) i k := by
    rw [List.append_assoc, show HEADER_SIZE
      = (flipBitAt (serializeHeader (encHdr1 P salt)) i k).length from h256f.symm,
      List.take_left]
  rw [decodePasswoodFile_eq _ P _ hguard (by rw [htake]; exact hparse)]
  rw [if_neg (show ¬ (MAGIC_BYTES ≠ MAGIC_BYTES) from fun h => h rfl)]
  rw [if_pos (show m' ≠ FILE_VERSION from hne')]
  exact ⟨.unsupportedVersion m', rfl⟩

set_option maxHeartbeats 2000000 in
/-- If the header HMAC verifies against the tag encode produced, the
(zero-hmac) header the verifier re-serialized is byte-for-byte the header
encode signed, hence field-for-field equal. -/
theorem verify_true_headers_eq (P : String) (salt : List Nat)
    (hsalt : salt.length = 32) (hdr2 : PasswoodHeader)
    (hm2 : hdr2.magic.length = 4) (hs2 : hdr2.kdfSalt.length = 32)
    (hv2 : hdr2.version < 4294967296) (ha2 : hdr2.encryptionAlgorithm < 4294967296)
    (hi2 : hdr2.kdfIterations < 4294967296) (hme2 : hdr2.kdfMemory < 4294967296)
    (hp2 : hdr2.kdfParallelism < 4294967296)
    (hv : verifyHMAC (serializeHeader { hdr2 with hmac := .bytes zeroHmac })
        (.tag (encTag P salt)) (createHMACKey P hdr2.kdfSalt) = true) :
    ({ hdr2 with hmac := .bytes zeroHmac } : PasswoodHeader) = encHdr0 P salt := by
  simp only [verifyHMAC, decide_eq_true_eq, encTag, generateHMAC,
    HmacField.tag.injEq, HTag.mk.injEq] at hv
  obtain ⟨hdata, hkey⟩ := hv
  have hbytes := map_val_inj
    (allConc_serializeHeader (encHdr0 P salt) zeroHmac rfl rfl hsalt length_zeroHmac)
    (allConc_serializeHeader { hdr2 with hmac := .bytes zeroHmac } zeroHmac rfl
      hm2 hs2 length_zeroHmac) hdata
  refine (serializeHeader_inj (encHdr0 P salt)
    { hdr2 with hmac := .bytes zeroHmac } rfl hsalt
    length_hmacFieldBytes_zeroHmac ?_ ?_ ?_ ?_ ?_
    (readHmacField_map_conc zeroHmac) hm2 hs2
    length_hmacFieldBytes_zeroHmac hv2 ha2 hi2 hme2 hp2
    (readHmacField_map_conc zeroHmac) hbytes).symm
  · show (1 : Nat) < 4294967296
    decide
  · show (1 : Nat) < 4294967296
    decide
  · show (600000 : Nat) < 4294967296
    decide
  · show (65536 : Nat) < 4294967296
    decide
  · show (4 : Nat) < 4294967296
    decide

theorem encHeader_layout (P : String) (salt : List Nat) (hsalt : salt.length = 32) :
    serializeHeader (encHdr1 P salt)
      = MAGIC_BYTES.map SByte.conc ++ (encU32 1 ++ (encU32 1 ++
        (salt.map SByte.conc ++ (encU32 600000 ++ (encU32 65536 ++
        (encU32 4 ++ ((List.range 32).map (SByte.hmacByte (encTag P salt)) ++
        zeros 168))))))) := by
  rw [serializeHeader_layout (encHdr1 P salt) rfl hsalt (length_hmacFieldBytes_tag _)]
  rfl

theorem decode_flip_alg (db : PasswoodCollection) (P : String)
    (salt iv : List Nat) (i k : Nat)
    (hsalt : salt.length = 32) (hiv : iv.length = 12) (hk : k < 8)
    (hlo : 8 ≤ i) (hhi : i < 12) :
    ∃ e, decodePasswoodFile (flipBitAt (encodePasswoodFile db P salt iv) i k) P
      = .error e := by
  obtain ⟨m', hrm, hne', hlt'⟩ := readU32_flipBitAt 1 (i - 8) k (by decide)
    (by omega) hk
  have h256 := length_encHeader P salt hsalt
  rw [encodePasswoodFile_parts]
  rw [flipBitAt_append_left _ _ i k (by simp [h256, hiv]; omega)]
  rw [flipBitAt_append_left _ _ i k (by rw [h256]; omega)]
  have h256f : (flipBitAt (serializeHeader (encHdr1 P salt)) i k).length = 256 := by
    rw [length_flipBitAt, h256]
  have hflip : flipBitAt (serializeHeader (encHdr1 P salt)) i k
      = MAGIC_BYTES.map SByte.conc ++ (encU32 1 ++ (flipBitAt (encU32 1) (i - 8) k ++
        (salt.map SByte.conc ++ (encU32 600000 ++ (encU32 65536 ++
        (encU32 4 ++ ((List.range 32).map (SByte.hmacByte (encTag P salt)) ++
        zeros 168))))))) := by
    rw [encHeader_layout P salt hsalt]
    rw [flipBitAt_append_right _ _ i k (by simp [MAGIC_BYTES]; omega)]
    rw [show (List.map SByte.conc MAGIC_BYTES).length = 4 from rfl]
    rw [flipBitAt_append_right _ _ (i - 4) k (by simp [length_encU32]; omega)]
    rw [length_encU32]
    rw [flipBitAt_append_left _ _ (i - 4 - 4) k (by simp [length_encU32]; omega)]
    rw [show i - 4 - 4 = i - 8 from by omega]
  have hlenf : (flipBitAt (encU32 1) (i - 8) k).length = 4 := by
    rw [length_flipBitAt, length_encU32]
  set HDRf : PasswoodHeader :=
    { magic := MAGIC_BYTES, version := FILE_VERSION, encryptionAlgorithm := m',
      kdfSalt := salt, kdfIterations := 600000, kdfMemory := 65536,
      kdfParallelism := 4, hmac := .tag (encTag P salt) } with hHDRf
  have hparse : deserializeHeader (flipBitAt (serializeHeader (encHdr1 P salt)) i k)
      = some HDRf := by
    rw [hflip, deserializeHeader_segments (MAGIC_BYTES.map SByte.conc) (encU32 1)
      (flipBitAt (encU32 1) (i - 8) k) (salt.map SByte.conc) (encU32 600000)
      (encU32 65536) (encU32 4)
      ((List.range 32).map (SByte.hmacByte (encTag P salt))) (zeros 168)
      rfl rfl hlenf (by simpa using hsalt) rfl rfl rfl (by simp) (length_zeros 168)]
    rw [concRegion_map_conc, concRegion_map_conc, hrm,
      readU32_encU32 1 (by decide), readU32_encU32 600000 (by decide),
      readU32_encU32 65536 (by decide), readU32_encU32 4 (by decide),
      readHmacField_tag (encTag P salt)]
    rfl
  have hguard : ¬ ((flipBitAt (serializeHeader (encHdr1 P salt)) i k ++ iv.map SByte.conc
      ++ ctBytes (encCt db P salt iv)).length < HEADER_SIZE + 12) := by
    simp [h256f, hiv, length_ctBytes, HEADER_SIZE]
    omega
  have htake : (flipBitAt (serializeHeader (encHdr1 P salt)) i k ++ iv.map SByte.conc
      ++ ctBytes (encCt db P salt iv)).take HEADER_SIZE
      = flipBitAt (serializeHeader (encHdr1 P salt)) i k := by
    rw [List.append_assoc, show HEADER_SIZE
      = (flipBitAt (serializeHeader (encHdr1 P salt)) i k).length from h256f.symm,
      List.take_left]
  rw [decodePasswoodFile_eq _ P _ hguard (by rw [htake]; exact hparse)]
  rw [if_neg (show ¬ (HDRf.magic ≠ MAGIC_BYTES) from fun h => h rfl)]
  rw [if_neg (show ¬ (HDRf.version ≠ FILE_VERSION) from fun h => h rfl)]
  have hcond : ¬ (verifyHMAC (serializeHeader { HDRf with hmac := .bytes zeroHmac })
      HDRf.hmac (createHMACKey P HDRf.kdfSalt) = true) := by
    intro hvv
    have he := verify_true_headers_eq P salt hsalt HDRf rfl hsalt
      (by show (1 : Nat) < 4294967296; decide) hlt'
      (by show (600000 : Nat) < 4294967296; decide)
      (by show (65536 : Nat) < 4294967296; decide)
      (by show (4 : Nat) < 4294967296; decide) hvv
    exact hne' (congrArg PasswoodHeader.encryptionAlgorithm he)
  rw [if_pos hcond]
  exact ⟨.hmacVerificationFailed, rfl⟩

theorem decode_flip_iter (db : PasswoodCollection) (P : String)
    (salt iv : List Nat) (i k : Nat)
    (hsalt : salt.length = 32) (hiv : iv.length = 12) (hk : k < 8)
    (hlo : 44 ≤ i) (hhi : i < 48) :
    ∃ e, decodePasswoodFile (flipBitAt (encodePasswoodFile db P salt iv) i k) P
      = .error e := by
  obtain ⟨m', hrm, hne', hlt'⟩ := readU32_flipBitAt 600000 (i - 44) k (by decide)
    (by omega) hk
  have h256 := length_encHeader P salt hsalt
  rw [encodePasswoodFile_parts]
  rw [flipBitAt_append_left _ _ i k (by simp [h256, hiv]; omega)]
  rw [flipBitAt_append_left _ _ i k (by rw [h256]; omega)]
  have h256f : (flipBitAt (serializeHeader (encHdr1 P salt)) i k).length = 256 := by
    rw [length_flipBitAt, h256]
  have hflip : flipBitAt (serializeHeader (encHdr1 P salt)) i k
      = MAGIC_BYTES.map SByte.conc ++ (encU32 1 ++ (encU32 1 ++
        (salt.map SByte.conc ++ (flipBitAt (encU32 600000) (i - 44) k ++ (encU32 65536 ++
        (encU32 4 ++ ((List.range 32).map (SByte.hmacByte (encTag P salt)) ++
        zeros 168))))))) := by
    rw [encHeader_layout P salt hsalt]
    rw [flipBitAt_append_right _ _ i k (by simp [MAGIC_BYTES]; omega)]
    rw [show (List.map SByte.conc MAGIC_BYTES).length = 4 from rfl]
    rw [flipBitAt_append_right _ _ (i - 4) k (by simp [length_encU32]; omega)]
    rw [length_encU32]
    rw [flipBitAt_append_right _ _ (i - 4 - 4) k (by simp [length_encU32]; omega)]
    rw [length_encU32]
    rw [flipBitAt_append_right _ _ (i - 4 - 4 - 4) k (by simp [hsalt]; omega)]
    rw [show (List.map SByte.conc salt).length = 32 from by simp [hsalt]]
    rw [flipBitAt_append_left _ _ (i - 4 - 4 - 4 - 32) k (by simp [length_encU32]; omega)]
    rw [show i - 4 - 4 - 4 - 32 = i - 44 from by omega]
  have hlenf : (flipBitAt (encU32 600000) (i - 44) k).length = 4 := by
    rw [length_flipBitAt, length_encU32]
  set HDRf : PasswoodHeader :=
    { magic := MAGIC_BYTES, version := FILE_VERSION, encryptionAlgorithm := 1,
      kdfSalt := salt, kdfIterations := m', kdfMemory := 65536,
      kdfParallelism := 4, hmac := .tag (encTag P salt) } with hHDRf
  have hparse : deserializeHeader (flipBitAt (serializeHeader (encHdr1 P salt)) i k)
      = some HDRf := by
    rw [hflip, deserializeHeader_segments (MAGIC_BYTES.map SByte.conc) (encU32 1)
      (encU32 1) (salt.map SByte.conc) (flipBitAt (encU32 600000) (i - 44) k)
      (encU32 65536) (encU32 4)
      ((List.range 32).map (SByte.hmacByte (encTag P salt))) (zeros 168)
      rfl rfl rfl (by simpa using hsalt) hlenf rfl rfl (by simp) (length_zeros 168)]
    rw [concRegion_map_conc, concRegion_map_conc, hrm,
      readU32_encU32 1 (by decide),
      readU32_encU32 65536 (by decide), readU32_encU32 4 (by decide),
      readHmacField_tag (encTag P salt)]
    rfl
  have hguard : ¬ ((flipBitAt (serializeHeader (encHdr1 P salt)) i k ++ iv.map SByte.conc
      ++ ctBytes (encCt db P salt iv)).length < HEADER_SIZE + 12) := by
    simp [h256f, hiv, length_ctBytes, HEADER_SIZE]
    omega
  have htake : (flipBitAt (serializeHeader (encHdr1 P salt)) i k ++ iv.map SByte.conc
      ++ ctBytes (encCt db P salt iv)).take HEADER_SIZE
      = flipBitAt (serializeHeader (encHdr1 P salt)) i k := by
    rw [List.append_assoc, show HEADER_SIZE
      = (flipBitAt (serializeHeader (encHdr1 P salt)) i k).length from h256f.symm,
      List.take_left]
  rw [decodePasswoodFile_eq _ P _ hguard (by rw [htake]; exact hparse)]
  rw [if_neg (show ¬ (HDRf.magic ≠ MAGIC_BYTES) from fun h => h rfl)]
  rw [if_neg (show ¬ (HDRf.version ≠ FILE_VERSION) from fun h => h rfl)]
  have hcond : ¬ (verifyHMAC (serializeHeader { HDRf with hmac := .bytes zeroHmac })
      HDRf.hmac (createHMACKey P HDRf.kdfSalt) = true) := by
    intro hvv
    have he := verify_true_headers_eq P salt hsalt HDRf rfl hsalt
      (by show (1 : Nat) < 4294967296; decide)
      (by show (1 : Nat) < 4294967296; decide)
      hlt'
      (by show (65536 : Nat) < 4294967296; decide)
      (by show (4 : Nat) < 4294967296; decide) hvv
    exact hne' (congrArg PasswoodHeader.kdfIterations he)
  rw [if_pos hcond]
  exact ⟨.hmacVerificationFailed, rfl⟩

theorem decode_flip_mem (db : PasswoodCollection) (P : String)
    (salt iv : List Nat) (i k : Nat)
    (hsalt : salt.length = 32) (hiv : iv.length = 12) (hk : k < 8)
    (hlo : 48 ≤ i) (hhi : i < 52) :
    ∃ e, decodePasswoodFile (flipBitAt (encodePasswoodFile db P salt iv) i k) P
      = .error e := by
  obtain ⟨m', hrm, hne', hlt'⟩ := readU32_flipBitAt 65536 (i - 48) k (by decide)
    (by omega) hk
  have h256 := length_encHeader P salt hsalt
  rw [encodePasswoodFile_parts]
  rw [flipBitAt_append_left _ _ i k (by simp [h256, hiv]; omega)]
  rw [flipBitAt_append_left _ _ i k (by rw [h256]; omega)]
  have h256f : (flipBitAt (serializeHeader (encHdr1 P salt)) i k).length = 256 := by
    rw [length_flipBitAt, h256]
  have hflip : flipBitAt (serializeHeader (encHdr1 P salt)) i k
      = MAGIC_BYTES.map SByte.conc ++ (encU32 1 ++ (encU32 1 ++
        (salt.map SByte.conc ++ (encU32 600000 ++ (flipBitAt (encU32 65536) (i - 48) k ++
        (encU32 4 ++ ((List.range 32).map (SByte.hmacByte (encTag P salt)) ++
        zeros 168))))))) := by
    rw [encHeader_layout P salt hsalt]
    rw [flipBitAt_append_right _ _ i k (by simp [MAGIC_BYTES]; omega)]
    rw [show (List.map SByte.conc MAGIC_BYTES).length = 4 from rfl]
    rw [flipBitAt_append_right _ _ (i - 4) k (by simp [length_encU32]; omega)]
    rw [length_encU32]
    rw [flipBitAt_append_right _ _ (i - 4 - 4) k (by simp [length_encU32]; omega)]
    rw [length_encU32]
    rw [flipBitAt_append_right _ _ (i - 4 - 4 - 4) k (by simp [hsalt]; omega)]
    rw [show (List.map SByte.conc salt).length = 32 from by simp [hsalt]]
    rw [flipBitAt_append_right _ _ (i - 4 - 4 - 4 - 32) k (by simp [length_encU32]; omega)]
    rw [length_encU32]
    rw [flipBitAt_append_left _ _ (i - 4 - 4 - 4 - 32 - 4) k (by simp [length_encU32]; omega)]
    rw [show i - 4 - 4 - 4 - 32 - 4 = i - 48 from by omega]
  have hlenf : (flipBitAt (encU32 65536) (i - 48) k).length = 4 := by
    rw [length_flipBitAt, length_encU32]
  set HDRf : PasswoodHeader :=
    { magic := MAGIC_BYTES, version := FILE_VERSION, encryptionAlgorithm := 1,
      kdfSalt := salt, kdfIterations := 600000, kdfMemory := m',
      kdfParallelism := 4, hmac := .tag (encTag P salt) } with hHDRf
  have hparse : deserializeHeader (flipBitAt (serializeHeader (encHdr1 P salt)) i k)
      = some HDRf := by
    rw [hflip, deserializeHeader_segments (MAGIC_BYTES.map SByte.conc) (encU32 1)
      (encU32 1) (salt.map SByte.conc) (encU32 600000)
      (flipBitAt (encU32 65536) (i - 48) k) (encU32 4)
      ((List.range 32).map (SByte.hmacByte (encTag P salt))) (zeros 168)
      rfl rfl rfl (by simpa using hsalt) rfl hlenf rfl (by simp) (length_zeros 168)]
    rw [concRegion_map_conc, concRegion_map_conc, hrm,
      readU32_encU32 1 (by decide), readU32_encU32 600000 (by decide),
      readU32_encU32 4 (by decide),
      readHmacField_tag (encTag P salt)]
    rfl
  have hguard : ¬ ((flipBitAt (serializeHeader (encHdr1 P salt)) i k ++ iv.map SByte.conc
      ++ ctBytes (encCt db P salt iv)).length < HEADER_SIZE + 12) := by
    simp [h256f, hiv, length_ctBytes, HEADER_SIZE]
    omega
  have htake : (flipBitAt (serializeHeader (encHdr1 P salt)) i k ++ iv.map SByte.conc
      ++ ctBytes (encCt db P salt iv)).take HEADER_SIZE
      = flipBitAt (serializeHeader (encHdr1 P salt)) i k := by
    rw [List.append_assoc, show HEADER_SIZE
      = (flipBitAt (serializeHeader (encHdr1 P salt)) i k).length from h256f.symm,
      List.take_left]
  rw [decodePasswoodFile_eq _ P _ hguard (by rw [htake]; exact hparse)]
  rw [if_neg (show ¬ (HDRf.magic ≠ MAGIC_BYTES) from fun h => h rfl)]
  rw [if_neg (show ¬ (HDRf.version ≠ FILE_VERSION) from fun h => h rfl)]
  have hcond : ¬ (verifyHMAC (serializeHeader { HDRf with hmac := .bytes zeroHmac })
      HDRf.hmac (createHMACKey P HDRf.kdfSalt) = true) := by
    intro hvv
    have he := verify_true_headers_eq P salt hsalt HDRf rfl hsalt
      (by show (1 : Nat) < 4294967296; decide)
      (by show (1 : Nat) < 4294967296; decide)
      (by show (600000 : Nat) < 4294967296; decide)
      hlt'
      (by show (4 : Nat) < 4294967296; decide) hvv
    exact hne' (congrArg PasswoodHeader.kdfMemory he)
  rw [if_pos hcond]
  exact ⟨.hmacVerificationFailed, rfl⟩

theorem decode_flip_par (db : PasswoodCollection) (P : String)
    (salt iv : List Nat) (i k : Nat)
    (hsalt : salt.length = 32) (hiv : iv.length = 12) (hk : k < 8)
    (hlo : 52 ≤ i) (hhi : i < 56) :
    ∃ e, decodePasswoodFile (flipBitAt (encodePasswoodFile db P salt iv) i k) P
      = .error e := by
  obtain ⟨m', hrm, hne', hlt'⟩ := readU32_flipBitAt 4 (i - 52) k (by decide)
    (by omega) hk
  have h256 := length_encHeader P salt hsalt
  rw [encodePasswoodFile_parts]
  rw [flipBitAt_append_left _ _ i k (by simp [h256, hiv]; omega)]
  rw [flipBitAt_append_left _ _ i k (by rw [h256]; omega)]
  have h256f : (flipBitAt (serializeHeader (encHdr1 P salt)) i k).length = 256 := by
    rw [length_flipBitAt, h256]
  have hflip : flipBitAt (serializeHeader (encHdr1 P salt)) i k
      = MAGIC_BYTES.map SByte.conc ++ (encU32 1 ++ (encU32 1 ++
        (salt.map SByte.conc ++ (encU32 600000 ++ (encU32 65536 ++
        (flipBitAt (encU32 4) (i - 52) k ++ ((List.range 32).map (SByte.hmacByte (encTag P salt)) ++
        zeros 168))))))) := by
    rw [encHeader_layout P salt hsalt]
    rw [flipBitAt_append_right _ _ i k (by simp [MAGIC_BYTES]; omega)]
    rw [show (List.map SByte.conc MAGIC_BYTES).length = 4 from rfl]
    rw [flipBitAt_append_right _ _ (i - 4) k (by simp [length_encU32]; omega)]
    rw [length_encU32]
    rw [flipBitAt_append_right _ _ (i - 4 - 4) k (by simp [length_encU32]; omega)]
    rw [length_encU32]
    rw [flipBitAt_append_right _ _ (i - 4 - 4 - 4) k (by simp [hsalt]; omega)]
    rw [show (List.map SByte.conc salt).length = 32 from by simp [hsalt]]
    rw [flipBitAt_append_right _ _ (i - 4 - 4 - 4 - 32) k (by simp [length_encU32]; omega)]
    rw [length_encU32]
    rw [flipBitAt_append_right _ _ (i - 4 - 4 - 4 - 32 - 4) k (by simp [length_encU32]; omega)]
    rw [length_encU32]
    rw [flipBitAt_append_left _ _ (i - 4 - 4 - 4 - 32 - 4 - 4) k (by simp [length_encU32]; omega)]
    rw [show i - 4 - 4 - 4 - 32 - 4 - 4 = i - 52 from by omega]
  have hlenf : (flipBitAt (encU32 4) (i - 52) k).length = 4 := by
    rw [length_flipBitAt, length_encU32]
  set HDRf : PasswoodHeader :=
    { magic := MAGIC_BYTES, version := FILE_VERSION, encryptionAlgorithm := 1,
      kdfSalt := salt, kdfIterations := 600000, kdfMemory := 65536,
      kdfParallelism := m', hmac := .tag (encTag P salt) } with hHDRf
  have hparse : deserializeHeader (flipBitAt (serializeHeader (encHdr1 P salt)) i k)
      = some HDRf := by
    rw [hflip, deserializeHeader_segments (MAGIC_BYTES.map SByte.conc) (encU32 1)
      (encU32 1) (salt.map SByte.conc) (encU32 600000)
      (encU32 65536) (flipBitAt (encU32 4) (i - 52) k)
      ((List.range 32).map (SByte.hmacByte (encTag P salt))) (zeros 168)
      rfl rfl rfl (by simpa using hsalt) rfl rfl hlenf (by simp) (length_zeros 168)]
    rw [concRegion_map_conc, concRegion_map_conc, hrm,
      readU32_encU32 1 (by decide), readU32_encU32 600000 (by decide),
      readU32_encU32 65536 (by decide),
      readHmacField_tag (encTag P salt)]
    rfl
  have hguard : ¬ ((flipBitAt (serializeHeader (encHdr1 P salt)) i k ++ iv.map SByte.conc
      ++ ctBytes (encCt db P salt iv)).length < HEADER_SIZE + 12) := by
    simp [h256f, hiv, length_ctBytes, HEADER_SIZE]
    omega
  have htake : (flipBitAt (serializeHeader (encHdr1 P salt)) i k ++ iv.map SByte.conc
      ++ ctBytes (encCt db P salt iv)).take HEADER_SIZE
      = flipBitAt (serializeHeader (encHdr1 P salt)) i k := by
    rw [List.append_assoc, show HEADER_SIZE
      = (flipBitAt (serializeHeader (encHdr1 P salt)) i k).length from h256f.symm,
      List.take_left]
  rw [decodePasswoodFile_eq _ P _ hguard (by rw [htake]; exact hparse)]
  rw [if_neg (show ¬ (HDRf.magic ≠ MAGIC_BYTES) from fun h => h rfl)]
  rw [if_neg (show ¬ (HDRf.version ≠ FILE_VERSION) from fun h => h rfl)]
  have hcond : ¬ (verifyHMAC (serializeHeader { HDRf with hmac := .bytes zeroHmac })
      HDRf.hmac (createHMACKey P HDRf.kdfSalt) = true) := by
    intro hvv
    have he := verify_true_headers_eq P salt hsalt HDRf rfl hsalt
      (by show (1 : Nat) < 4294967296; decide)
      (by show (1 : Nat) < 4294967296; decide)
      (by show (600000 : Nat) < 4294967296; decide)
      (by show (65536 : Nat) < 4294967296; decide)
      hlt' hvv
    exact hne' (congrArg PasswoodHeader.kdfParallelism he)
  rw [if_pos hcond]
  exact ⟨.hmacVerificationFailed, rfl⟩

theorem decode_flip_salt (db : PasswoodCollection) (P : String)
    (salt iv : List Nat) (i k : Nat)
    (hsalt : salt.length = 32) (hiv : iv.length = 12) (hk : k < 8)
    (hlo : 12 ≤ i) (hhi : i < 44) :
    ∃ e, decodePasswoodFile (flipBitAt (encodePasswoodFile db P salt iv) i k) P
      = .error e := by
  have hsne : flipNatAt salt (i - 12) k ≠ salt :=
    flipNatAt_ne salt (i - 12) k (by rw [hsalt]; omega)
  have h256 := length_encHeader P salt hsalt
  rw [encodePasswoodFile_parts]
  rw [flipBitAt_append_left _ _ i k (by simp [h256, hiv]; omega)]
  rw [flipBitAt_append_left _ _ i k (by rw [h256]; omega)]
  have h256f : (flipBitAt (serializeHeader (encHdr1 P salt)) i k).length = 256 := by
    rw [length_flipBitAt, h256]
  have hflip : flipBitAt (serializeHeader (encHdr1 P salt)) i k
      = MAGIC_BYTES.map SByte.conc ++ (encU32 1 ++ (encU32 1 ++
        ((flipNatAt salt (i - 12) k).map SByte.conc ++ (encU32 600000 ++ (encU32 65536 ++
        (encU32 4 ++ ((List.range 32).map (SByte.hmacByte (encTag P salt)) ++
        zeros 168))))))) := by
    rw [encHeader_layout P salt hsalt]
    rw [flipBitAt_append_right _ _ i k (by simp [MAGIC_BYTES]; omega)]
    rw [show (List.map SByte.conc MAGIC_BYTES).length = 4 from rfl]
    rw [flipBitAt_append_right _ _ (i - 4) k (by simp [length_encU32]; omega)]
    rw [length_encU32]
    rw [flipBitAt_append_right _ _ (i - 4 - 4) k (by simp [length_encU32]; omega)]
    rw [length_encU32]
    rw [flipBitAt_append_left _ _ (i - 4 - 4 - 4) k (by simp [hsalt]; omega)]
    rw [show i - 4 - 4 - 4 = i - 12 from by omega]
    rw [flipBitAt_map_conc]
  have hlenf : ((flipNatAt salt (i - 12) k).map SByte.conc).length = 32 := by
    simp [length_flipNatAt, hsalt]
  set HDRf : PasswoodHeader :=
    { magic := MAGIC_BYTES, version := FILE_VERSION, encryptionAlgorithm := 1,
      kdfSalt := flipNatAt salt (i - 12) k, kdfIterations := 600000,
      kdfMemory := 65536, kdfParallelism := 4,
      hmac := .tag (encTag P salt) } with hHDRf
  have hparse : deserializeHeader (flipBitAt (serializeHeader (encHdr1 P salt)) i k)
      = some HDRf := by
    rw [hflip, deserializeHeader_segments (MAGIC_BYTES.map SByte.conc) (encU32 1)
      (encU32 1) ((flipNatAt salt (i - 12) k).map SByte.conc) (encU32 600000)
      (encU32 65536) (encU32 4)
      ((List.range 32).map (SByte.hmacByte (encTag P salt))) (zeros 168)
      rfl rfl rfl hlenf rfl rfl rfl (by simp) (length_zeros 168)]
    rw [concRegion_map_conc, concRegion_map_conc,
      readU32_encU32 1 (by decide), readU32_encU32 600000 (by decide),
      readU32_encU32 65536 (by decide), readU32_encU32 4 (by decide),
      readHmacField_tag (encTag P salt)]
    rfl
  have hguard : ¬ ((flipBitAt (serializeHeader (encHdr1 P salt)) i k ++ iv.map SByte.conc
      ++ ctBytes (encCt db P salt iv)).length < HEADER_SIZE + 12) := by
    simp [h256f, hiv, length_ctBytes, HEADER_SIZE]
    omega
  have htake : (flipBitAt (serializeHeader (encHdr1 P salt)) i k ++ iv.map SByte.conc
      ++ ctBytes (encCt db P salt iv)).take HEADER_SIZE
      = flipBitAt (serializeHeader (encHdr1 P salt)) i k := by
    rw [List.append_assoc, show HEADER_SIZE
      = (flipBitAt (serializeHeader (encHdr1 P salt)) i k).length from h256f.symm,
      List.take_left]
  rw [decodePasswoodFile_eq _ P _ hguard (by rw [htake]; exact hparse)]
  rw [if_neg (show ¬ (HDRf.magic ≠ MAGIC_BYTES) from fun h => h rfl)]
  rw [if_neg (show ¬ (HDRf.version ≠ FILE_VERSION) from fun h => h rfl)]
  have hcond : ¬ (verifyHMAC (serializeHeader { HDRf with hmac := .bytes zeroHmac })
      HDRf.hmac (createHMACKey P HDRf.kdfSalt) = true) := by
    intro hvv
    have he := verify_true_headers_eq P salt hsalt HDRf rfl
      (by show (flipNatAt salt (i - 12) k).length = 32
          rw [length_flipNatAt, hsalt])
      (by show (1 : Nat) < 4294967296; decide)
      (by show (1 : Nat) < 4294967296; decide)
      (by show (600000 : Nat) < 4294967296; decide)
      (by show (65536 : Nat) < 4294967296; decide)
      (by show (4 : Nat) < 4294967296; decide) hvv
    exact hsne (congrArg PasswoodHeader.kdfSalt he)
  rw [if_pos hcond]
  exact ⟨.hmacVerificationFailed, rfl⟩

theorem decode_flip_hmacRegion (db : PasswoodCollection) (P : String)
    (salt iv : List Nat) (i k : Nat)
    (hsalt : salt.length = 32) (hiv : iv.length = 12)
    (hlo : 56 ≤ i) (hhi : i < 88) :
    ∃ e, decodePasswoodFile (flipBitAt (encodePasswoodFile db P salt iv) i k) P
      = .error e := by
  obtain ⟨r, hr⟩ := readHmacField_flip_tag (encTag P salt) (i - 56) k (by omega)
  have h256 := length_encHeader P salt hsalt
  rw [encodePasswoodFile_parts]
  rw [flipBitAt_append_left _ _ i k (by simp [h256, hiv]; omega)]
  rw [flipBitAt_append_left _ _ i k (by rw [h256]; omega)]
  have h256f : (flipBitAt (serializeHeader (encHdr1 P salt)) i k).length = 256 := by
    rw [length_flipBitAt, h256]
  have hflip : flipBitAt (serializeHeader (encHdr1 P salt)) i k
      = MAGIC_BYTES.map SByte.conc ++ (encU32 1 ++ (encU32 1 ++
        (salt.map SByte.conc ++ (encU32 600000 ++ (encU32 65536 ++
        (encU32 4 ++
        (flipBitAt ((List.range 32).map (SByte.hmacByte (encTag P salt))) (i - 56) k ++
        zeros 168))))))) := by
    rw [encHeader_layout P salt hsalt]
    rw [flipBitAt_append_right _ _ i k (by simp [MAGIC_BYTES]; omega)]
    rw [show (List.map SByte.conc MAGIC_BYTES).length = 4 from rfl]
    rw [flipBitAt_append_right _ _ (i - 4) k (by simp [length_encU32]; omega)]
    rw [length_encU32]
    rw [flipBitAt_append_right _ _ (i - 4 - 4) k (by simp [length_encU32]; omega)]
    rw [length_encU32]
    rw [flipBitAt_append_right _ _ (i - 4 - 4 - 4) k (by simp [hsalt]; omega)]
    rw [show (List.map SByte.conc salt).length = 32 from by simp [hsalt]]
    rw [flipBitAt_append_right _ _ (i - 4 - 4 - 4 - 32) k (by simp [length_encU32]; omega)]
    rw [length_encU32]
    rw [flipBitAt_append_right _ _ (i - 4 - 4 - 4 - 32 - 4) k (by simp [length_encU32]; omega)]
    rw [length_encU32]
    rw [flipBitAt_append_right _ _ (i - 4 - 4 - 4 - 32 - 4 - 4) k (by simp [length_encU32]; omega)]
    rw [length_encU32]
    rw [flipBitAt_append_left _ _ (i - 4 - 4 - 4 - 32 - 4 - 4 - 4) k (by simp; omega)]
    rw [show i - 4 - 4 - 4 - 32 - 4 - 4 - 4 = i - 56 from by omega]
  have hlenf : (flipBitAt ((List.range 32).map (SByte.hmacByte (encTag P salt)))
      (i - 56) k).length = 32 := by
    rw [length_flipBitAt]
    simp
  set HDRf : PasswoodHeader :=
    { magic := MAGIC_BYTES, version := FILE_VERSION, encryptionAlgorithm := 1,
      kdfSalt := salt, kdfIterations := 600000, kdfMemory := 65536,
      kdfParallelism := 4, hmac := .junk r } with hHDRf
  have hparse : deserializeHeader (flipBitAt (serializeHeader (encHdr1 P salt)) i k)
      = some HDRf := by
    rw [hflip, deserializeHeader_segments (MAGIC_BYTES.map SByte.conc) (encU32 1)
      (encU32 1) (salt.map SByte.conc) (encU32 600000)
      (encU32 65536) (encU32 4)
      (flipBitAt ((List.range 32).map (SByte.hmacByte (encTag P salt))) (i - 56) k)
      (zeros 168)
      rfl rfl rfl (by simpa using hsalt) rfl rfl rfl hlenf (length_zeros 168)]
    rw [concRegion_map_conc, concRegion_map_conc,
      readU32_encU32 1 (by decide), readU32_encU32 600000 (by decide),
      readU32_encU32 65536 (by decide), readU32_encU32 4 (by decide), hr]
    rfl
  have hguard : ¬ ((flipBitAt (serializeHeader (encHdr1 P salt)) i k ++ iv.map SByte.conc
      ++ ctBytes (encCt db P salt iv)).length < HEADER_SIZE + 12) := by
    simp [h256f, hiv, length_ctBytes, HEADER_SIZE]
    omega
  have htake : (flipBitAt (serializeHeader (encHdr1 P salt)) i k ++ iv.map SByte.conc
      ++ ctBytes (encCt db P salt iv)).take HEADER_SIZE
      = flipBitAt (serializeHeader (encHdr1 P salt)) i k := by
    rw [List.append_assoc, show HEADER_SIZE
      = (flipBitAt (serializeHeader (encHdr1 P salt)) i k).length from h256f.symm,
      List.take_left]
  rw [decodePasswoodFile_eq _ P _ hguard (by rw [htake]; exact hparse)]
  rw [if_neg (show ¬ (HDRf.magic ≠ MAGIC_BYTES) from fun h => h rfl)]
  rw [if_neg (show ¬ (HDRf.version ≠ FILE_VERSION) from fun h => h rfl)]
  have hcond : ¬ (verifyHMAC (serializeHeader { HDRf with hmac := .bytes zeroHmac })
      HDRf.hmac (createHMACKey P HDRf.kdfSalt) = true) := by
    intro hvv
    simp only [verifyHMAC, decide_eq_true_eq, hHDRf] at hvv
    exact HmacField.noConfusion hvv
  rw [if_pos hcond]
  exact ⟨.hmacVerificationFailed, rfl⟩

theorem encHeader_parse (P : String) (salt : List Nat) (hsalt : salt.length = 32) :
    deserializeHeader (serializeHeader (encHdr1 P salt)) = some (encHdr1 P salt) := by
  refine deserializeHeader_serializeHeader _ rfl hsalt (length_hmacFieldBytes_tag _)
    ?_ ?_ ?_ ?_ ?_ (readHmacField_tag _)
  · show (1 : Nat) < 4294967296
    decide
  · show (1 : Nat) < 4294967296
    decide
  · show (600000 : Nat) < 4294967296
    decide
  · show (65536 : Nat) < 4294967296
    decide
  · show (4 : Nat) < 4294967296
    decide

theorem encHeader_verify (P : String) (salt : List Nat) :
    verifyHMAC (serializeHeader { encHdr1 P salt with hmac := .bytes zeroHmac })
      (encHdr1 P salt).hmac (createHMACKey P (encHdr1 P salt).kdfSalt) = true := by
  show verifyHMAC (serializeHeader (encHdr0 P salt)) (.tag (encTag P salt))
    (createHMACKey P salt) = true
  simp [verifyHMAC, encTag]

theorem decode_flip_iv (db : PasswoodCollection) (P : String)
    (salt iv : List Nat) (i k : Nat)
    (hsalt : salt.length = 32) (hiv : iv.length = 12)
    (hlo : 256 ≤ i) (hhi : i < 268) :
    ∃ e, decodePasswoodFile (flipBitAt (encodePasswoodFile db P salt iv) i k) P
      = .error e := by
  have h256 := length_encHeader P salt hsalt
  rw [encodePasswoodFile_parts]
  rw [flipBitAt_append_left _ _ i k (by simp [h256, hiv]; omega)]
  rw [flipBitAt_append_right _ _ i k (by rw [h256]; omega)]
  rw [h256, flipBitAt_map_conc]
  have hlenf : ((flipNatAt iv (i - 256) k).map SByte.conc).length = 12 := by
    simp [length_flipNatAt, hiv]
  have hguard : ¬ ((serializeHeader (encHdr1 P salt)
      ++ (flipNatAt iv (i - 256) k).map SByte.conc
      ++ ctBytes (encCt db P salt iv)).length < HEADER_SIZE + 12) := by
    simp [h256, hlenf, length_ctBytes, HEADER_SIZE]
    omega
  have htake : (serializeHeader (encHdr1 P salt)
      ++ (flipNatAt iv (i - 256) k).map SByte.conc
      ++ ctBytes (encCt db P salt iv)).take HEADER_SIZE
      = serializeHeader (encHdr1 P salt) := by
    rw [List.append_assoc, show HEADER_SIZE
      = (serializeHeader (encHdr1 P salt)).length from h256.symm, List.take_left]
  have hivslice : ((serializeHeader (encHdr1 P salt)
      ++ (flipNatAt iv (i - 256) k).map SByte.conc
      ++ ctBytes (encCt db P salt iv)).drop HEADER_SIZE).take 12
      = (flipNatAt iv (i - 256) k).map SByte.conc := by
    rw [List.append_assoc, show HEADER_SIZE
      = (serializeHeader (encHdr1 P salt)).length from h256.symm, List.drop_left,
      show (12 : Nat) = ((flipNatAt iv (i - 256) k).map SByte.conc).length from hlenf.symm,
      List.take_left]
  have hctslice : (serializeHeader (encHdr1 P salt)
      ++ (flipNatAt iv (i - 256) k).map SByte.conc
      ++ ctBytes (encCt db P salt iv)).drop (HEADER_SIZE + 12)
      = ctBytes (encCt db P salt iv) := by
    rw [show HEADER_SIZE + 12 = (serializeHeader (encHdr1 P salt)
      ++ (flipNatAt iv (i - 256) k).map SByte.conc).length by
        simp [h256, hlenf, HEADER_SIZE], List.drop_left]
  rw [decodePasswoodFile_eq _ P _ hguard (by rw [htake]; exact encHeader_parse P salt hsalt)]
  rw [if_neg (show ¬ ((encHdr1 P salt).magic ≠ MAGIC_BYTES) from fun h => h rfl)]
  rw [if_neg (show ¬ ((encHdr1 P salt).version ≠ FILE_VERSION) from fun h => h rfl)]
  rw [if_neg (show ¬ ¬ (verifyHMAC
      (serializeHeader { encHdr1 P salt with hmac := .bytes zeroHmac })
      (encHdr1 P salt).hmac (createHMACKey P (encHdr1 P salt).kdfSalt) = true)
    from fun h => h (encHeader_verify P salt))]
  rw [hctslice, hivslice]
  have hnotpair : ¬ ((encCt db P salt iv).key
      = deriveKey P (encHdr1 P salt).kdfSalt (encHdr1 P salt).kdfIterations
      ∧ (flipNatAt iv (i - 256) k).map SByte.conc
        = (encCt db P salt iv).iv.map SByte.conc) := by
    intro hpair
    have h3 := congrArg concRegion hpair.2
    rw [concRegion_map_conc, concRegion_map_conc] at h3
    exact flipNatAt_ne iv (i - 256) k (by rw [hiv]; omega)
      ((Option.some.injEq _ _).mp h3)
  have hdec : decryptData (ctBytes (encCt db P salt iv))
      (deriveKey P (encHdr1 P salt).kdfSalt (encHdr1 P salt).kdfIterations)
      ((flipNatAt iv (i - 256) k).map SByte.conc) = none := by
    simp only [decryptData, reassembleCt_ctBytes]
    rw [if_neg hnotpair]
  rw [hdec]
  exact ⟨.decryptionFailed, rfl⟩

theorem decode_flip_ct (db : PasswoodCollection) (P : String)
    (salt iv : List Nat) (i k : Nat)
    (hsalt : salt.length = 32) (hiv : iv.length = 12)
    (hlo : 268 ≤ i) (hhi : i < 268 + ctLen (encCt db P salt iv)) :
    ∃ e, decodePasswoodFile (flipBitAt (encodePasswoodFile db P salt iv) i k) P
      = .error e := by
  have h256 := length_encHeader P salt hsalt
  rw [encodePasswoodFile_parts]
  rw [flipBitAt_append_right _ _ i k (by simp [h256, hiv]; omega)]
  rw [show (serializeHeader (encHdr1 P salt) ++ iv.map SByte.conc).length = 268 from by
    simp [h256, hiv]]
  have hlenf : (flipBitAt (ctBytes (encCt db P salt iv)) (i - 268) k).length
      = ctLen (encCt db P salt iv) := by
    rw [length_flipBitAt, length_ctBytes]
  have hguard : ¬ (((serializeHeader (encHdr1 P salt) ++ iv.map SByte.conc)
      ++ flipBitAt (ctBytes (encCt db P salt iv)) (i - 268) k).length
      < HEADER_SIZE + 12) := by
    simp [h256, hiv, hlenf, HEADER_SIZE]
    omega
  have htake : ((serializeHeader (encHdr1 P salt) ++ iv.map SByte.conc)
      ++ flipBitAt (ctBytes (encCt db P salt iv)) (i - 268) k).take HEADER_SIZE
      = serializeHeader (encHdr1 P salt) := by
    rw [List.append_assoc, show HEADER_SIZE
      = (serializeHeader (encHdr1 P salt)).length from h256.symm, List.take_left]
  have hivslice : (((serializeHeader (encHdr1 P salt) ++ iv.map SByte.conc)
      ++ flipBitAt (ctBytes (encCt db P salt iv)) (i - 268) k).drop HEADER_SIZE).take 12
      = iv.map SByte.conc := by
    rw [List.append_assoc, show HEADER_SIZE
      = (serializeHeader (encHdr1 P salt)).length from h256.symm, List.drop_left,
      show (12 : Nat) = (iv.map SByte.conc).length by simp [hiv], List.take_left]
  have hctslice : ((serializeHeader (encHdr1 P salt) ++ iv.map SByte.conc)
      ++ flipBitAt (ctBytes (encCt db P salt iv)) (i - 268) k).drop (HEADER_SIZE + 12)
      = flipBitAt (ctBytes (encCt db P salt iv)) (i - 268) k := by
    rw [show HEADER_SIZE + 12
      = (serializeHeader (encHdr1 P salt) ++ iv.map SByte.conc).length by
        simp [h256, hiv, HEADER_SIZE], List.drop_left]
  rw [decodePasswoodFile_eq _ P _ hguard (by rw [htake]; exact encHeader_parse P salt hsalt)]
  rw [if_neg (show ¬ ((encHdr1 P salt).magic ≠ MAGIC_BYTES) from fun h => h rfl)]
  rw [if_neg (show ¬ ((encHdr1 P salt).version ≠ FILE_VERSION) from fun h => h rfl)]
  rw [if_neg (show ¬ ¬ (verifyHMAC
      (serializeHeader { encHdr1 P salt with hmac := .bytes zeroHmac })
      (encHdr1 P salt).hmac (createHMACKey P (encHdr1 P salt).kdfSalt) = true)
    from fun h => h (encHeader_verify P salt))]
  rw [hctslice, hivslice]
  have hra := reassembleCt_flip (encCt db P salt iv) (i - 268) k (by omega)
  have hdec : decryptData (flipBitAt (ctBytes (encCt db P salt iv)) (i - 268) k)
      (deriveKey P (encHdr1 P salt).kdfSalt (encHdr1 P salt).kdfIterations)
      (iv.map SByte.conc) = none := by
    simp only [decryptData, hra]
  rw [hdec]
  exact ⟨.decryptionFailed, rfl⟩

theorem length_encodePasswoodFile (db : PasswoodCollection) (P : String)
    (salt iv : List Nat) (hsalt : salt.length = 32) (hiv : iv.length = 12) :
    (encodePasswoodFile db P salt iv).length = 268 + ctLen (encCt db P salt iv) := by
  rw [encodePasswoodFile_parts]
  simp [length_encHeader P salt hsalt, hiv, length_ctBytes]
  omega

/-- C3 (counterexample): flipping a bit inside the header's reserved padding
region (byte 88) is NOT detected: the file still decodes successfully,
because the verifier recomputes the HMAC over a re-serialization of the
parsed fields, which regenerates the zero padding. -/
theorem claim_C3_counterexample :
    decodePasswoodFile
      (flipBitAt (encodePasswoodFile sampleDb "hunter2" sampleSalt sampleIv) 88 0)
      "hunter2" = .ok sampleDb := by
  rfl

/-- C3 (amended): flipping any single bit of an encoded file inside the
parsed header fields (bytes 0..87) or anywhere in the nonce/ciphertext
(bytes 256 onward) makes decode fail; only the reserved padding region
(bytes 88..255) escapes detection. -/
theorem claim_C3_amended (db : PasswoodCollection) (P : String) (salt iv : List Nat)
    (i k : Nat) (hsalt : salt.length = 32) (hiv : iv.length = 12) (hk : k < 8)
    (hpos : i < 88 ∨ (256 ≤ i ∧ i < (encodePasswoodFile db P salt iv).length)) :
    ∃ e, decodePasswoodFile (flipBitAt (encodePasswoodFile db P salt iv) i k) P
      = .error e := by
  have hlen := length_encodePasswoodFile db P salt iv hsalt hiv
  rcases hpos with hh | ⟨h1, h2⟩
  · rcases (show i < 4 ∨ (4 ≤ i ∧ i < 8) ∨ (8 ≤ i ∧ i < 12) ∨ (12 ≤ i ∧ i < 44)
        ∨ (44 ≤ i ∧ i < 48) ∨ (48 ≤ i ∧ i < 52) ∨ (52 ≤ i ∧ i < 56)
        ∨ (56 ≤ i ∧ i < 88) from by omega) with
      h | ⟨ha, hb⟩ | ⟨ha, hb⟩ | ⟨ha, hb⟩ | ⟨ha, hb⟩ | ⟨ha, hb⟩ | ⟨ha, hb⟩ | ⟨ha, hb⟩
    · exact decode_flip_magic db P salt iv i k hsalt hiv h
    · exact decode_flip_version db P salt iv i k hsalt hiv hk ha hb
    · exact decode_flip_alg db P salt iv i k hsalt hiv hk ha hb
    · exact decode_flip_salt db P salt iv i k hsalt hiv hk ha hb
    · exact decode_flip_iter db P salt iv i k hsalt hiv hk ha hb
    · exact decode_flip_mem db P salt iv i k hsalt hiv hk ha hb
    · exact decode_flip_par db P salt iv i k hsalt hiv hk ha hb
    · exact decode_flip_hmacRegion db P salt iv i k hsalt hiv ha hb
  · rcases (show i < 268 ∨ 268 ≤ i from by omega) with hlt | hge
    · exact decode_flip_iv db P salt iv i k hsalt hiv h1 hlt
    · exact decode_flip_ct db P salt iv i k hsalt hiv hge (by rw [hlen] at h2; omega)

theorem claim_C3_amended_witness :
    sampleSalt.length = 32 ∧ sampleIv.length = 12 ∧ (0 : Nat) < 8 ∧
    (∃ e, decodePasswoodFile
      (flipBitAt (encodePasswoodFile sampleDb "hunter2" sampleSalt sampleIv) 0 0)
      "hunter2" = .error e) :=
  ⟨by decide, by decide, by decide,
    claim_C3_amended sampleDb "hunter2" sampleSalt sampleIv 0 0
      (by decide) (by decide) (by decide) (Or.inl (by decide))⟩

/-- C4 (counterexample): the integrity-key derivation createHMACKey runs
PBKDF2 with a fixed 100000 iterations, below the 600000 build-time minimum
the claim asserts for both derivations. -/
theorem claim_C4_counterexample :
    (createHMACKey "hunter2" sampleSalt).iterations = 100000
    ∧ ¬ (600000 ≤ (createHMACKey "hunter2" sampleSalt).iterations) := by
  decide

/-- C4 (amended): the encryption key encode uses is derived with exactly
600000 iterations (meeting the 600000 minimum), but the integrity key is
derived with a fixed 100000 iterations and reuses the very same salt; the
two derivations are domain-separated only by iteration count and derived-key
algorithm, which still yields distinct keys. -/
theorem claim_C4_amended (db : PasswoodCollection) (P : String) (salt iv : List Nat)
    (hsalt : salt.length = 32) (hiv : iv.length = 12) :
    (encodePasswoodFile db P salt iv).drop (HEADER_SIZE + 12)
        = ctBytes { key := deriveKey P salt 600000, iv := iv,
                    plain := jsonStringify db }
    ∧ (deriveKey P salt 600000).iterations = 600000
    ∧ 600000 ≤ (deriveKey P salt 600000).iterations
    ∧ (createHMACKey P salt).iterations = 100000
    ∧ (createHMACKey P salt).salt = salt
    ∧ (∀ n, createHMACKey P salt ≠ deriveKey P salt n) := by
  refine ⟨?_, rfl, Nat.le_refl _, rfl, rfl, ?_⟩
  · rw [encodePasswoodFile_parts]
    rw [show HEADER_SIZE + 12
        = (serializeHeader (encHdr1 P salt) ++ iv.map SByte.conc).length by
        simp [length_encHeader P salt hsalt, hiv, HEADER_SIZE], List.drop_left]
    rfl
  · intro n h
    exact KeyAlg.noConfusion (congrArg CryptoKey.alg h)

theorem claim_C4_amended_witness :
    sampleSalt.length = 32 ∧ sampleIv.length = 12 ∧
    ((createHMACKey "hunter2" sampleSalt).iterations = 100000
      ∧ (createHMACKey "hunter2" sampleSalt).salt = sampleSalt) :=
  ⟨by decide, by decide,
    ⟨(claim_C4_amended sampleDb "hunter2" sampleSalt sampleIv
        (by decide) (by decide)).2.2.2.1,
      (claim_C4_amended sampleDb "hunter2" sampleSalt sampleIv
        (by decide) (by decide)).2.2.2.2.1⟩⟩

/-- C6 (counterexample): updatePassword with an id that occurs nowhere in
the vault reports no error at all (its result type is not even fallible) and
returns the vault unchanged except for a refreshed vault-level modified
timestamp - exactly the "unchanged-but-touched vault as if it had succeeded"
the claim rules out. -/
theorem claim_C6_counterexample :
    (∀ p ∈ sampleDb.passwords, p.id ≠ "zzz")
    ∧ updatePassword sampleDb "zzz" emptyPasswordUpdates "2024-03-01T00:00:00Z"
        = { sampleDb with modified := "2024-03-01T00:00:00Z" }
    ∧ ({ sampleDb with modified := "2024-03-01T00:00:00Z" } : PasswoodCollection)
        ≠ sampleDb := by
  decide

/-- C6 (amended): updatePassword and updateEntry on an id absent from the
vault silently return the vault with its records untouched and only the
vault-level modified timestamp refreshed; no NotFoundError is reported (the
operations cannot fail). -/
theorem claim_C6_amended (db : PasswoodCollection) (edb : PasswoodEntryCollection)
    (pid eid : String) (u : PasswordUpdates) (eu : EntryUpdates) (now : String)
    (hp : ∀ p ∈ db.passwords, p.id ≠ pid) (he : ∀ e ∈ edb.entries, e.id ≠ eid) :
    updatePassword db pid u now = { db with modified := now }
    ∧ updateEntry edb eid eu now = { edb with modified := now } := by
  constructor
  · have hmap : ∀ (l : List PasswoodPassword), (∀ p ∈ l, p.id ≠ pid) →
        (l.map fun password =>
          if password.id = pid then applyPasswordUpdates password u now
          else password) = l := by
      intro l hl
      induction l with
      | nil => rfl
      | cons x r ih =>
        rw [List.map_cons, if_neg (hl x (List.mem_cons_self x r)),
          ih (fun p hpp => hl p (List.mem_cons_of_mem _ hpp))]
    simp only [updatePassword]
    rw [hmap db.passwords hp]
  · have hmap : ∀ (l : List PasswoodEntry), (∀ e ∈ l, e.id ≠ eid) →
        (l.map fun entry =>
          if entry.id = eid then applyEntryUpdates entry eu now
          else entry) = l := by
      intro l hl
      induction l with
      | nil => rfl
      | cons x r ih =>
        rw [List.map_cons, if_neg (hl x (List.mem_cons_self x r)),
          ih (fun e hee => hl e (List.mem_cons_of_mem _ hee))]
    simp only [updateEntry]
    rw [hmap edb.entries he]

theorem claim_C6_amended_witness :
    (∀ p ∈ sampleDb.passwords, p.id ≠ "zzz")
    ∧ (∀ e ∈ sampleEdb.entries, e.id ≠ "zzz")
    ∧ updatePassword sampleDb "zzz" emptyPasswordUpdates "2024-03-01T00:00:00Z"
        = { sampleDb with modified := "2024-03-01T00:00:00Z" } :=
  ⟨by decide, by decide,
    (claim_C6_amended sampleDb sampleEdb "zzz" "zzz" emptyPasswordUpdates
      emptyEntryUpdates "2024-03-01T00:00:00Z" (by decide) (by decide)).1⟩

theorem foldl_rename_map {α : Type} (g : PasswoodPassword → α)
    (hg : ∀ p t, g { p with tags := t } = g p)
    (rs : List (String × String)) (pws : List PasswoodPassword) :
    (rs.foldl (fun passwords r => passwords.map fun password =>
      { password with
        tags := password.tags.map (List.map fun tag => if tag = r.1 then r.2 else tag) })
      pws).map g = pws.map g := by
  induction rs generalizing pws with
  | nil => rfl
  | cons r rest ih =>
    rw [List.foldl_cons, ih, List.map_map]
    exact List.map_congr_left (fun p _ => hg p _)

theorem foldl_delete_map {α : Type} (g : PasswoodPassword → α)
    (hg : ∀ p t, g { p with tags := t } = g p)
    (ds : List String) (pws : List PasswoodPassword) :
    (ds.foldl (fun passwords deletedName => passwords.map fun password =>
      { password with
        tags := password.tags.map (List.filter fun tag => tag != deletedName) })
      pws).map g = pws.map g := by
  induction ds generalizing pws with
  | nil => rfl
  | cons d rest ih =>
    rw [List.foldl_cons, ih, List.map_map]
    exact List.map_congr_left (fun p _ => hg p _)

/-- C7 (counterexample): deleting the tag "work" changes the tag membership
of the sample record, yet the record's modified timestamp (and the
collection's) stays exactly what it was - nothing in handleSaveTags touches
any timestamp. -/
theorem claim_C7_counterexample :
    (handleSaveTags sampleDb [] [] ["work"]).passwords.map (fun p => p.tags)
        ≠ sampleDb.passwords.map (fun p => p.tags)
    ∧ (handleSaveTags sampleDb [] [] ["work"]).passwords.map (fun p => p.modified)
        = sampleDb.passwords.map (fun p => p.modified)
    ∧ (handleSaveTags sampleDb [] [] ["work"]).modified = sampleDb.modified := by
  decide

/-- C7 (amended): the tag rename/delete cascade rewrites record tag sets but
never refreshes any record's modified field, nor the collection's: both are
carried over unchanged for every record, for every rename/delete list. -/
theorem claim_C7_amended (collection : PasswoodCollection) (tags : List Tag)
    (renamedTags : List (String × String)) (deletedTagNames : List String) :
    (handleSaveTags collection tags renamedTags deletedTagNames).passwords.map
        (fun p => p.modified) = collection.passwords.map (fun p => p.modified)
    ∧ (handleSaveTags collection tags renamedTags deletedTagNames).passwords.map
        (fun p => p.id) = collection.passwords.map (fun p => p.id)
    ∧ (handleSaveTags collection tags renamedTags deletedTagNames).modified
        = collection.modified := by
  refine ⟨?_, ?_, rfl⟩
  · show ((deletedTagNames.foldl _ (renamedTags.foldl _ collection.passwords)).map _) = _
    rw [foldl_delete_map (fun p => p.modified) (fun p t => rfl),
      foldl_rename_map (fun p => p.modified) (fun p t => rfl)]
  · show ((deletedTagNames.foldl _ (renamedTags.foldl _ collection.passwords)).map _) = _
    rw [foldl_delete_map (fun p => p.id) (fun p t => rfl),
      foldl_rename_map (fun p => p.id) (fun p t => rfl)]

/-- C8: deleting one tag name via the cascade maps every record to itself
with only that name filtered out of its tag set: record count and order are
preserved, every other tag membership survives, and every non-tag field of
every record is unchanged. -/
theorem claim_C8_delete_cascade (collection : PasswoodCollection) (tags : List Tag)
    (n : String) :
    (handleSaveTags collection tags [] [n]).passwords
        = collection.passwords.map (fun p =>
            { p with tags := p.tags.map (List.filter fun tag => tag != n) })
    ∧ (handleSaveTags collection tags [] [n]).passwords.length
        = collection.passwords.length
    ∧ ∀ p : PasswoodPassword,
        ({ p with tags := p.tags.map (List.filter fun tag => tag != n) }).id = p.id
        ∧ ({ p with tags := p.tags.map (List.filter fun tag => tag != n) }).title = p.title
        ∧ ({ p with tags := p.tags.map (List.filter fun tag => tag != n) }).login = p.login
        ∧ ({ p with tags := p.tags.map (List.filter fun tag => tag != n) }).password
            = p.password
        ∧ ({ p with tags := p.tags.map (List.filter fun tag => tag != n) }).url = p.url
        ∧ ({ p with tags := p.tags.map (List.filter fun tag => tag != n) }).notes = p.notes
        ∧ ({ p with tags := p.tags.map (List.filter fun tag => tag != n) }).created
            = p.created
        ∧ ({ p with tags := p.tags.map (List.filter fun tag => tag != n) }).modified
            = p.modified
        ∧ ({ p with tags := p.tags.map (List.filter fun tag => tag != n) }).customFields
            = p.customFields
        ∧ ∀ tag : String,
            (tag ∈ ({ p with
                tags := p.tags.map (List.filter fun t => t != n) }).tags.getD [])
              ↔ (tag ∈ p.tags.getD [] ∧ tag ≠ n) := by
  refine ⟨rfl, by simp [handleSaveTags], ?_⟩
  intro p
  refine ⟨rfl, rfl, rfl, rfl, rfl, rfl, rfl, rfl, rfl, ?_⟩
  intro tag
  cases htags : p.tags with
  | none => simp [htags]
  | some ts => simp [htags, List.mem_filter, bne_iff_ne]

theorem search_passwords_matches_iff (q : String) (p : PasswoodPassword) :
    (jsIncludes p.title.toLower q.toLower || jsIncludes p.login.toLower q.toLower ||
      (match p.url with
       | some url => jsIncludes url.toLower q.toLower
       | none => false) ||
      (match p.tags with
       | some tags => tags.any fun tag => jsIncludes tag.toLower q.toLower
       | none => false)) = true
    ↔ (specCaseInsensitiveSubstring q p.title ∨ specCaseInsensitiveSubstring q p.login
       ∨ (∃ u, p.url = some u ∧ specCaseInsensitiveSubstring q u)
       ∨ (∃ ts, p.tags = some ts ∧ ∃ t ∈ ts, specCaseInsensitiveSubstring q t)) := by
  cases hu : p.url <;> cases ht : p.tags <;>
    simp [jsIncludes, specCaseInsensitiveSubstring, hu, ht, List.any_eq_true, or_assoc]

theorem search_entries_matches_iff (q : String) (e : PasswoodEntry) :
    (jsIncludes e.title.toLower q.toLower || jsIncludes e.username.toLower q.toLower ||
      (match e.url with
       | some url => jsIncludes url.toLower q.toLower
       | none => false) ||
      (match e.tags with
       | some tags => tags.any fun tag => jsIncludes tag.toLower q.toLower
       | none => false)) = true
    ↔ (specCaseInsensitiveSubstring q e.title ∨ specCaseInsensitiveSubstring q e.username
       ∨ (∃ u, e.url = some u ∧ specCaseInsensitiveSubstring q u)
       ∨ (∃ ts, e.tags = some ts ∧ ∃ t ∈ ts, specCaseInsensitiveSubstring q t)) := by
  cases hu : e.url <;> cases ht : e.tags <;>
    simp [jsIncludes, specCaseInsensitiveSubstring, hu, ht, List.any_eq_true, or_assoc]

/-- C9: searchPasswords / searchEntries return exactly the records for which
the query is a case-insensitive substring of the title, login/username, url
or some tag name, and return them as a subsequence of the vault's record
list, in the original order. -/
theorem claim_C9_search (db : PasswoodCollection) (edb : PasswoodEntryCollection)
    (q : String) :
    List.Sublist (searchPasswords db q) db.passwords
    ∧ (∀ p, p ∈ searchPasswords db q ↔ p ∈ db.passwords ∧
        (specCaseInsensitiveSubstring q p.title ∨ specCaseInsensitiveSubstring q p.login
         ∨ (∃ u, p.url = some u ∧ specCaseInsensitiveSubstring q u)
         ∨ (∃ ts, p.tags = some ts ∧ ∃ t ∈ ts, specCaseInsensitiveSubstring q t)))
    ∧ List.Sublist (searchEntries edb q) edb.entries
    ∧ (∀ e, e ∈ searchEntries edb q ↔ e ∈ edb.entries ∧
        (specCaseInsensitiveSubstring q e.title
         ∨ specCaseInsensitiveSubstring q e.username
         ∨ (∃ u, e.url = some u ∧ specCaseInsensitiveSubstring q u)
         ∨ (∃ ts, e.tags = some ts ∧ ∃ t ∈ ts, specCaseInsensitiveSubstring q t))) := by
  refine ⟨List.filter_sublist _, ?_, List.filter_sublist _, ?_⟩
  · intro p
    simp only [searchPasswords, List.mem_filter]
    rw [search_passwords_matches_iff]
  · intro e
    simp only [searchEntries, List.mem_filter]
    rw [search_entries_matches_iff]

end Passwood
